import Mathlib

/-!
# Verification of the WaveFunctionCollapse engine

Shallow embedding of the repository's source files:

* `pseudorandom.js` (current revision: `nextInt` / `nextFloat` / `setSeed`)
* `socket.js`, `tile.js`, `cell.js` (the `Cell` with
  `options`/`entropy`/`sumOfWeights`/`isCollapsed` and `collapse`)
* `grid.js`, `waveFunctionCollapse.js`

Modelling conventions:

* JS numbers that hold integer counters/seeds are modelled as `ℤ`,
  fractional quantities (weights, PRNG draws) as `ℚ`, and the
  log₂-based entropy quantities as `ℝ`.  The machine floating point of
  the host is modelled by exact arithmetic.
* A cell's `entropy` field can hold the IEEE `Infinity` (set by
  `Cell.prototype.collapse`); it is modelled as `WithTop ℝ`, with `⊤`
  for `Infinity`.
* JS `undefined` for fields that are unset before/after collapse is
  modelled with `Option`.
* In-place mutation of the grid / the tile catalog is modelled by
  state-passing: each mutating method becomes a function returning the
  updated state.
-/

namespace WFC

/-! ## Pseudorandom (pseudorandom.js)

`Rng` holds only the integer `seed`; we pass the seed explicitly.
`Math.random()` inside `setSeed` is the single source of true
randomness; it is modelled by an explicit `oracle` argument. -/

/-- `Rng.prototype.nextFloat(max)`: advances the seed by one, computes
`temp = seed * 15485863`, `r = (temp³ % 2038074743) / 2038074743` and
returns `r * max` (raw `r` when `max` is nullish).  Returns the drawn
value together with the advanced seed.  JS `%` on integers is the
truncating remainder, i.e. `Int.tmod`. -/
def nextFloat (seed : ℤ) (max : Option ℚ) : ℚ × ℤ :=
  let s := seed + 1
  let temp := s * 15485863
  let randomNumber : ℚ := ((temp * temp * temp).tmod 2038074743 : ℤ) / 2038074743
  (match max with
   | some m => randomNumber * m
   | none => randomNumber, s)

/-- `Rng.prototype.nextInt(max)`: the body is
`Math.floor(this.nextFloat(max));` with no `return`, so the call
advances the seed exactly as `nextFloat` does, computes the floor, and
returns `undefined` (modelled as `none`). -/
def nextInt (seed : ℤ) (max : Option ℚ) : Option ℚ × ℤ :=
  let fs := nextFloat seed max
  let _ := ⌊fs.1⌋
  (none, fs.2)

/-- Modelled from the spec: the spec says "`nextInt(max)` is
`floor(nextFloat(max))`"; this is the return value the claim asserts,
kept for comparison with the source's `nextInt`. -/
def nextIntSpec (seed : ℤ) (max : Option ℚ) : Option ℚ × ℤ :=
  let fs := nextFloat seed max
  (some (⌊fs.1⌋ : ℚ), fs.2)

/-- `Rng.prototype.setSeed(seed)`: keeps a truthy seed, otherwise draws
`Math.floor(Math.random() * 500)` — the latter is the `oracle`
argument; `0` is the only falsy `ℤ`. -/
def setSeed (seed oracle : ℤ) : ℤ :=
  if seed = 0 then oracle else seed

/-! ## Socket (socket.js) and Tile (tile.js) -/

/-- `Socket`: the four directional connector values of a 2D tile
(socket.js).  In the engine the sockets travel as the array
`[up, right, down, left]`, indexed by direction `0..3`. -/
structure Socket where
  up : ℕ
  right : ℕ
  down : ℕ
  left : ℕ

/-- The direction-indexed array view of a `Socket`, as the engine
consumes it (`tile.sockets[index]`). -/
def Socket.toList (s : Socket) : List ℕ :=
  [s.up, s.right, s.down, s.left]

/-- One tile of the catalog (tile.js).  `value` is the opaque payload
(modelled as `ℕ`), `sockets` the direction-indexed connector values,
`weight` and `entropy` the fields the constructor computes,
`validAdjacent` the per-direction adjacency table that
`defineAdjacencies` fills in. -/
structure Tile where
  value : ℕ
  sockets : List ℕ
  weight : ℚ
  validAdjacent : List (List ℕ)
  entropy : ℝ

/-- The `Tile` constructor (tile.js): stores `weight / 10` (the
constructor divides the caller's weight by ten), an empty adjacency
list per socket, and `entropy = -this.weight * log2(this.weight)`
computed from the *stored* weight. -/
noncomputable def mkTile (value : ℕ) (sockets : List ℕ) (weight : ℚ := 1) : Tile :=
  let w := weight / 10
  { value := value
    sockets := sockets
    weight := w
    validAdjacent := List.replicate sockets.length []
    entropy := -(w : ℝ) * Real.logb 2 (w : ℝ) }

/-- Placeholder for a JS `undefined` read out of the tile array
(`this.tiles[i]` out of range); unreachable in engine runs. -/
noncomputable def dTile : Tile :=
  { value := 0, sockets := [], weight := 0, validAdjacent := [], entropy := 0 }

/-! ## Cell (cell.js) -/

/-- One grid position (cell.js).  Before collapse `options` holds the
admissible tile indices and `value`/`sockets`/`validAdjacent` are
`undefined`; `Cell.prototype.collapse` resolves the cell, clears
`options` and sets `entropy` to `Infinity` (`⊤`). -/
structure Cell where
  value : Option ℕ
  sockets : Option (List ℕ)
  options : Option (List ℕ)
  validAdjacent : Option (List (List ℕ))
  entropy : WithTop ℝ
  sumOfWeights : ℚ
  isCollapsed : Bool

/-- The `Cell` constructor as the engine calls it (with an array of
tile indices): `value`/`sockets` undefined, `options` the given
indices, entropy and weight sum the caller-computed aggregates,
`isCollapsed` false.  (The `validAdjacent` line of the constructor is
commented out in the source, so the field starts `undefined`.) -/
def mkCell (opts : List ℕ) (startingEntropy : ℝ) (startingWeightSum : ℚ) : Cell :=
  { value := none
    sockets := none
    options := some opts
    validAdjacent := none
    entropy := (startingEntropy : WithTop ℝ)
    sumOfWeights := startingWeightSum
    isCollapsed := false }

/-- `Cell.prototype.collapse(tile)`: copies the tile's payload, sockets
and adjacency table into the cell, clears `options`, sets `entropy`
to `Infinity` and marks the cell collapsed.  `sumOfWeights` is left
unchanged by the source. -/
def collapseCell (c : Cell) (t : Tile) : Cell :=
  { c with
    value := some t.value
    sockets := some t.sockets
    options := none
    validAdjacent := some t.validAdjacent
    entropy := (⊤ : WithTop ℝ)
    isCollapsed := true }

/-- Placeholder for a JS `undefined` read out of the grid's item array;
unreachable in engine runs (all stack coordinates are in bounds). -/
def dCell : Cell :=
  { value := none, sockets := none, options := none, validAdjacent := none
    entropy := ((0 : ℝ) : WithTop ℝ), sumOfWeights := 0, isCollapsed := false }

/-- Read of `cell.options` at a use site that in JS assumes the array
is present (guarded by `!isCollapsed` in every reachable state). -/
def optD (c : Cell) : List ℕ := c.options.getD []

/-- Read of `cell.validAdjacent[d]` (guarded by `isCollapsed`). -/
def vAdjD (c : Cell) (d : ℕ) : List ℕ := (c.validAdjacent.getD []).getD d []

/-- Read of `cell.sockets[d]`; `none` models the JS `undefined` that an
out-of-range index yields, so that `!=` comparisons match JS. -/
def sockD (c : Cell) (d : ℕ) : Option ℕ := (c.sockets.getD [])[d]?

/-! ## Grid (grid.js) -/

/-- One entry of `Grid.prototype.offsets`. -/
structure Offset where
  ox : ℤ
  oy : ℤ
  dir : ℕ
  opposite : ℕ

/-- The fixed offset table of the `Grid` constructor:
up, right, down, left with `opposite` paired up↔down, right↔left. -/
def gridOffsets : List Offset :=
  [⟨0, -1, 0, 2⟩, ⟨1, 0, 1, 3⟩, ⟨0, 1, 2, 0⟩, ⟨-1, 0, 3, 1⟩]

/-- A neighbor descriptor as produced by `Grid.prototype.getAdjacent`. -/
structure Adj where
  x : ℤ
  y : ℤ
  index : ℤ
  direction : ℕ
  oppositeDirection : ℕ
deriving DecidableEq

/-- The 2D container of grid.js, generic in the item type exactly as
the JS grid is payload-agnostic. -/
structure Grid (α : Type) where
  dimX : ℕ
  dimY : ℕ
  isWrappingAllowed : Bool
  items : List α

/-- `Grid.prototype.verifyBounds`: with wrapping disabled checks
`0 ≤ x < dimX ∧ 0 ≤ y < dimY`; with wrapping enabled it accepts every
coordinate (the source performs no modulo reduction anywhere). -/
def verifyBounds {α} (g : Grid α) (x y : ℤ) : Bool :=
  if !g.isWrappingAllowed then
    decide (0 ≤ x) && decide (0 ≤ y) &&
      decide (x < (g.dimX : ℤ)) && decide (y < (g.dimY : ℤ))
  else true

/-- `Grid.prototype.getIndexFromCoordinates`: `x + y * dimX`. -/
def gridIndex {α} (g : Grid α) (x y : ℤ) : ℤ := x + y * (g.dimX : ℤ)

/-- `Grid.prototype.get`: `undefined` (`none`) when the bounds check
fails; a negative or too-large computed index reads an unset array
slot in JS and also yields `undefined`. -/
def gridGet {α} (g : Grid α) (x y : ℤ) : Option α :=
  if verifyBounds g x y then
    if 0 ≤ gridIndex g x y then g.items[(gridIndex g x y).toNat]? else none
  else none

/-- `Grid.prototype.set`: writes the slot when the bounds check passes;
no-op otherwise.  (A write through an index outside `0..size-1` — only
reachable with wrapping enabled — is dropped, matching that the engine
never constructs wrapping grids.) -/
def gridSet {α} (g : Grid α) (x y : ℤ) (v : α) : Grid α :=
  if verifyBounds g x y then
    if 0 ≤ gridIndex g x y then
      { g with items := g.items.set (gridIndex g x y).toNat v }
    else g
  else g

/-- `Grid.prototype.getAdjacent`: for each of the four offsets, in
order, the raw offset coordinates and their row-major index when they
pass the bounds check; `direction` is the position in the offset
table, `oppositeDirection` the table's `opposite` field. -/
def gridGetAdjacent {α} (g : Grid α) (x y : ℤ) : List Adj :=
  gridOffsets.enum.filterMap fun io =>
    if verifyBounds g (io.2.ox + x) (io.2.oy + y) then
      some ⟨io.2.ox + x, io.2.oy + y, (io.2.ox + x) + (io.2.oy + y) * (g.dimX : ℤ),
        io.1, io.2.opposite⟩
    else none

/-! ## Engine state (waveFunctionCollapse.js) -/

/-- The engine's `this`: dimensions, the catalog (after adjacency
compilation), the PRNG seed, the current grid, and the (never updated)
`amountCollapsedCells` counter. -/
structure Wfc where
  width : ℕ
  height : ℕ
  widthTimesHeight : ℕ
  noiseModifier : ℚ
  tiles : List Tile
  rng : ℤ
  grid : Grid Cell
  amountCollapsedCells : ℕ

/-- `this.offsets[d].opposite` in the engine: `(d + 2) % 4`
(the constructor builds the table by that formula). -/
def engineOpp (d : ℕ) : ℕ := (d + 2) % 4

/-- `getTiles` with a single numeric index: `this.tiles[i]`. -/
noncomputable def getTileD (tiles : List Tile) (i : ℕ) : Tile := tiles.getD i dTile

/-- `this.tiles.filter((_, index) => indices.includes(index))`, written
with an explicit running index. -/
def getTilesAux (indices : List ℕ) : ℕ → List Tile → List Tile
  | _, [] => []
  | i, t :: ts =>
    if indices.contains i then t :: getTilesAux indices (i + 1) ts
    else getTilesAux indices (i + 1) ts

/-- `WaveFunctionCollapse.prototype.getTiles` on an array argument. -/
def getTiles (tiles : List Tile) (indices : List ℕ) : List Tile :=
  getTilesAux indices 0 tiles

/-- `getEntropyByIndices`: reduce of the selected tiles' `entropy`
fields from `0`. -/
def entropyByIndices (tiles : List Tile) (indices : List ℕ) : ℝ :=
  (getTiles tiles indices).foldl (fun a t => a + t.entropy) 0

/-- `getSumOfWeightsByIndices`: reduce of the selected tiles' `weight`
fields from `0`. -/
def weightsByIndices (tiles : List Tile) (indices : List ℕ) : ℚ :=
  (getTiles tiles indices).foldl (fun a t => a + t.weight) 0

/-- The candidate indices pushed into `tile.validAdjacent[d]` by one
sweep of `defineAdjacencies`: every catalog index `j` whose tile's
socket opposite to `d` equals this tile's socket in direction `d`
(JS `===` on socket values; an out-of-range socket read is
`undefined`, modelled by `Option` equality). -/
noncomputable def matchingAdjacent (tiles : List Tile) (t : Tile) (d : ℕ) : List ℕ :=
  (List.range tiles.length).filter fun j =>
    decide (t.sockets[d]? = (getTileD tiles j).sockets[(engineOpp d)]?)

/-- `WaveFunctionCollapse.prototype.defineAdjacencies`: for every tile
and every socket direction, appends the matching candidate indices to
the tile's existing `validAdjacent[d]` (the source mutates the
caller's tiles in place and never clears the lists; tiles built by the
`Tile` constructor have `validAdjacent.length = sockets.length`).
Only each tile's immutable `sockets` are read, so the sequential
in-place sweep equals this simultaneous map. -/
noncomputable def defineAdjacencies (tiles : List Tile) : List Tile :=
  tiles.map fun t =>
    { t with
      validAdjacent := (List.range t.sockets.length).map fun d =>
        t.validAdjacent.getD d [] ++ matchingAdjacent tiles t d }

/-- The cell list built by `generateEmptyGrid`'s `forEach`: one cell
per index in row-major order, each drawing its own noise term from the
shared PRNG (`noise = rng.nextFloat(noiseModifier)`), with
entropy `startingEntropy + noise`.  Returns the cells and the advanced
seed. -/
def mkCellsAux (tileIndices : List ℕ) (se : ℝ) (sw : ℚ) (nm : ℚ) :
    ℕ → ℤ → List Cell × ℤ
  | 0, seed => ([], seed)
  | n + 1, seed =>
    let fs := nextFloat seed (some nm)
    let rest := mkCellsAux tileIndices se sw nm n fs.2
    (mkCell tileIndices (se + (fs.1 : ℝ)) sw :: rest.1, rest.2)

/-- `WaveFunctionCollapse.prototype.generateEmptyGrid` (the
`isWrappingAllowed` parameter is never passed and defaults to
`false`): a `width × height` grid of fresh cells, every one holding
the full tile-index list, the catalog-wide entropy plus its own noise
term, and the catalog-wide weight sum. -/
def generateEmptyGridRaw (tiles : List Tile) (w h : ℕ) (nm : ℚ) (seed : ℤ) :
    Grid Cell × ℤ :=
  let tileIndices := List.range tiles.length
  let se := entropyByIndices tiles tileIndices
  let sw := weightsByIndices tiles tileIndices
  let cs := mkCellsAux tileIndices se sw nm (w * h) seed
  ({ dimX := w, dimY := h, isWrappingAllowed := false, items := cs.1 }, cs.2)

/-- `WaveFunctionCollapse.prototype.regenerateGrid`: replaces the grid
with a freshly generated one (continuing the same PRNG stream). -/
def regenerateGrid (s : Wfc) : Wfc :=
  let gr := generateEmptyGridRaw s.tiles s.width s.height s.noiseModifier s.rng
  { s with grid := gr.1, rng := gr.2 }

/-- The `WaveFunctionCollapse` constructor: compiles adjacencies into
the caller's tiles, seeds the PRNG (`new Rng(seed)` calls `setSeed`,
which falls back to `Math.random()` — the `oracle` — when the seed is
falsy), and generates the initial grid.  `noiseModifier = 10⁻¹²`. -/
noncomputable def mkWfc (tiles : List Tile) (w h : ℕ) (seed oracle : ℤ) : Wfc :=
  let tiles' := defineAdjacencies tiles
  let rng0 := setSeed seed oracle
  let nm : ℚ := 1 / 10 ^ 12
  let gr := generateEmptyGridRaw tiles' w h nm rng0
  { width := w
    height := h
    widthTimesHeight := w * h
    noiseModifier := nm
    tiles := tiles'
    rng := gr.2
    grid := gr.1
    amountCollapsedCells := 0 }

/-- `this.grid.get(x, y)` with the JS crash-freedom of reachable states
made total: `dCell` stands for the `undefined` an out-of-bounds read
would produce (never dereferenced in engine runs). -/
def cellAt (s : Wfc) (p : ℤ × ℤ) : Cell := (gridGet s.grid p.1 p.2).getD dCell

/-- `this.grid.set(x, y, cell)` on the engine state. -/
def updCell (s : Wfc) (x y : ℤ) (c : Cell) : Wfc :=
  { s with grid := gridSet s.grid x y c }

/-! ## Propagation (`propagateAtCoordinates`) -/

/-- The `newOptions` const of the loop body: the uncollapsed
neighbor's admissible indices intersected (by `filter`/`includes`)
with the popped collapsed cell's `validAdjacent[direction]`. -/
def newOptionsOf (cell : Cell) (a : Adj) (adjacentCell : Cell) : List ℕ :=
  (optD adjacentCell).filter fun t => (vAdjD cell a.direction).contains t

/-- The strict-shrink update of the loop body: collapse the neighbor
outright when exactly one option remains, otherwise store the reduced
options with recomputed entropy and weight sum. -/
noncomputable def shrinkUpd (tiles : List Tile) (cell : Cell) (a : Adj) (s : Wfc) : Wfc :=
  if (newOptionsOf cell a (cellAt s (a.x, a.y))).length == 1 then
    updCell s a.x a.y (collapseCell (cellAt s (a.x, a.y))
      (getTileD tiles ((newOptionsOf cell a (cellAt s (a.x, a.y))).headD 0)))
  else
    updCell s a.x a.y
      { cellAt s (a.x, a.y) with
        options := some (newOptionsOf cell a (cellAt s (a.x, a.y)))
        entropy := ((entropyByIndices tiles
          (newOptionsOf cell a (cellAt s (a.x, a.y))) : ℝ) : WithTop ℝ)
        sumOfWeights := weightsByIndices tiles
          (newOptionsOf cell a (cellAt s (a.x, a.y))) }

/-- One neighbor's work in the propagation loop body.  `cell` is the
popped cell (fetched once in the source; it is never one of its own
neighbors, so the snapshot is exact).  `Except.error` is the `return
this.regenerateGrid()` of a contradiction: the socket clash of two
collapsed neighbors, or an empty intersection of the uncollapsed
neighbor's options with `cell.validAdjacent[direction]`.  On a strict
shrink the neighbor is updated and its coordinates are pushed. -/
noncomputable def neighborStep (tiles : List Tile) (cell : Cell) (a : Adj) (s : Wfc)
    (stack : List (ℤ × ℤ)) : Except Wfc (Wfc × List (ℤ × ℤ)) :=
  if cell.isCollapsed && (cellAt s (a.x, a.y)).isCollapsed then
    if sockD (cellAt s (a.x, a.y)) (engineOpp a.direction) ≠ sockD cell a.direction then
      .error (regenerateGrid s)
    else .ok (s, stack)
  else if cell.isCollapsed && !(cellAt s (a.x, a.y)).isCollapsed then
    if (newOptionsOf cell a (cellAt s (a.x, a.y))).length < 1 then
      .error (regenerateGrid s)
    else if (newOptionsOf cell a (cellAt s (a.x, a.y))).length <
        (optD (cellAt s (a.x, a.y))).length then
      .ok (shrinkUpd tiles cell a s, (a.x, a.y) :: stack)
    else .ok (s, stack)
  else .ok (s, stack)

/-- The `for adjacencyInfo of getAdjacent(...)` fold over the popped
coordinate's neighbor descriptors.  The LIFO stack is a list with its
head as top. -/
noncomputable def stepNeighbors (tiles : List Tile) (cell : Cell) :
    List Adj → Wfc → List (ℤ × ℤ) → Except Wfc (Wfc × List (ℤ × ℤ))
  | [], s, stack => .ok (s, stack)
  | a :: rest, s, stack =>
    match neighborStep tiles cell a s stack with
    | .error e => .error e
    | .ok (s', stack') => stepNeighbors tiles cell rest s' stack'

/-- One iteration of the propagation loop: pop a coordinate, fetch its
cell and scan its in-bounds neighbors. -/
noncomputable def processCell (s : Wfc) (p : ℤ × ℤ) (stack : List (ℤ × ℤ)) :
    Except Wfc (Wfc × List (ℤ × ℤ)) :=
  stepNeighbors s.tiles (cellAt s p) (gridGetAdjacent s.grid p.1 p.2) s stack

/-- Outcome of one `propagateAtCoordinates` call: the pass either hit a
contradiction (`return this.regenerateGrid()` — the loop is abandoned
with the regenerated state), or drained its stack, or the modelling
fuel ran out (the source's loop is unbounded). -/
inductive PropResult where
  | regenerated : Wfc → PropResult
  | completed : Wfc → PropResult
  | fuelExhausted : PropResult
deriving Nonempty

/-- The `while(stack.length > 0)` loop of `propagateAtCoordinates`,
with explicit fuel. -/
noncomputable def propagateLoop : ℕ → List (ℤ × ℤ) → Wfc → PropResult
  | 0, _, _ => .fuelExhausted
  | _ + 1, [], s => .completed s
  | n + 1, p :: rest, s =>
    match processCell s p rest with
    | .error s' => .regenerated s'
    | .ok (s', stack') => propagateLoop n stack' s'

/-- `WaveFunctionCollapse.prototype.propagateAtCoordinates`. -/
noncomputable def propagateAtCoordinates (f : ℕ) (s : Wfc) (x y : ℤ) : PropResult :=
  propagateLoop f [(x, y)] s

/-! ## Collapse, scan and run -/

/-- The `possibleTiles.find` of `collapseCoordinates`: subtract each
candidate's weight from the running draw and select the first tile
that sends it negative (cumulative-weight sampling). -/
def pickTile : ℚ → List Tile → Option Tile
  | _, [] => none
  | r, t :: ts => if r - t.weight < 0 then some t else pickTile (r - t.weight) ts

/-- `WaveFunctionCollapse.prototype.collapseCoordinates`: draw
`rng.nextFloat(cell.sumOfWeights)`, select a tile by cumulative
weight, collapse the cell in place, and propagate from its
coordinates. -/
noncomputable def collapseCoordinates (f : ℕ) (s : Wfc) (x y : ℤ) : PropResult :=
  let cell := cellAt s (x, y)
  let possibleTiles := getTiles s.tiles (optD cell)
  let fs := nextFloat s.rng (some cell.sumOfWeights)
  let choosen := (pickTile fs.1 possibleTiles).getD dTile
  let s' := updCell { s with rng := fs.2 } x y (collapseCell cell choosen)
  propagateAtCoordinates f s' x y

/-- `WaveFunctionCollapse.prototype.isCollapsed`: reduce over the grid
counting cells whose `isCollapsed` flag is unset, compared to `0`. -/
def isCollapsedB (s : Wfc) : Bool :=
  (s.grid.items.foldl (fun p c => if c.isCollapsed then p else p + 1) (0 : ℕ)) == 0

/-- The full observable behavior of a call to `isCollapsed()`: the
returned boolean together with the engine state after the call.  The
method body only reads the grid, so the state comes back unchanged. -/
def isCollapsedCall (s : Wfc) : Bool × Wfc := (isCollapsedB s, s)

open Classical in
/-- `WaveFunctionCollapse.prototype.getLowestEntropyCoordinates`:
row-major scan keeping the first strictly smallest entropy;
`none` models the initial `-1` that survives when no cell beats
`Infinity`. -/
noncomputable def getLowestEntropyCoordinates (s : Wfc) : Option (ℤ × ℤ) :=
  (s.grid.items.enum.foldl
    (fun acc ic =>
      if acc.2 > ic.2.entropy then
        (some (((ic.1 % s.grid.dimX : ℕ) : ℤ), ((ic.1 / s.grid.dimX : ℕ) : ℤ)), ic.2.entropy)
      else acc)
    ((none : Option (ℤ × ℤ)), (⊤ : WithTop ℝ))).1

/-- The `while(!this.isCollapsed())` loop of `run`, with fuel for the
outer loop and for each propagation pass.  The second component counts
the grid regenerations the run performed (an observation the source
logs but does not store). -/
noncomputable def runLoop : ℕ → ℕ → Wfc → ℕ → Option (Grid Cell × ℕ)
  | 0, _, _, _ => none
  | n + 1, pf, s, restarts =>
    if isCollapsedB s then some (s.grid, restarts)
    else
      match getLowestEntropyCoordinates s with
      | none => none
      | some (x, y) =>
        match collapseCoordinates pf s x y with
        | .completed s' => runLoop n pf s' restarts
        | .regenerated s' => runLoop n pf s' (restarts + 1)
        | .fuelExhausted => none

/-- `WaveFunctionCollapse.prototype.run(seed)`: reseeds only when the
argument is truthy (so a present, nonzero argument; the falsy `0` or
an absent argument leaves the stream untouched), then loops to full
collapse. -/
noncomputable def runWfc (seedArg : Option ℤ) (n pf : ℕ) (s : Wfc) :
    Option (Grid Cell × ℕ) :=
  let s0 :=
    match seedArg with
    | some v => if v = 0 then s else { s with rng := v }
    | none => s
  runLoop n pf s0 0

/-! ## General lemmas about the embedded operations -/

/-- The cells built for a fresh grid: one per requested index. -/
lemma mkCellsAux_length (ti : List ℕ) (se : ℝ) (sw : ℚ) (nm : ℚ) (n : ℕ) (seed : ℤ) :
    (mkCellsAux ti se sw nm n seed).1.length = n := by
  induction n generalizing seed with
  | zero => rfl
  | succ n ih => simp [mkCellsAux, ih]

/-- Every freshly built cell is uncollapsed and carries the full
tile-index list. -/
lemma mkCellsAux_mem (ti : List ℕ) (se : ℝ) (sw : ℚ) (nm : ℚ) (n : ℕ) (seed : ℤ) :
    ∀ c ∈ (mkCellsAux ti se sw nm n seed).1,
      c.isCollapsed = false ∧ c.options = some ti := by
  induction n generalizing seed with
  | zero => intro c hc; simp [mkCellsAux] at hc
  | succ n ih =>
    intro c hc
    simp only [mkCellsAux, List.mem_cons] at hc
    rcases hc with h | h
    · subst h; exact ⟨rfl, rfl⟩
    · exact ih _ c h

/-- `defineAdjacencies` keeps the catalog's length. -/
lemma defineAdjacencies_length (tiles : List Tile) :
    (defineAdjacencies tiles).length = tiles.length :=
  List.length_map _ _

/-- The uncollapsed-cell count of `isCollapsed()`'s reduce, with an
arbitrary accumulator. -/
lemma foldl_uncollapsed_count (l : List Cell) (n : ℕ) :
    l.foldl (fun p c => if c.isCollapsed then p else p + 1) n =
      n + l.countP (fun c => !c.isCollapsed) := by
  induction l generalizing n with
  | nil => simp
  | cons c l ih =>
    by_cases h : c.isCollapsed <;>
      simp [List.countP_cons, h, ih, Nat.add_comm, Nat.add_assoc, Nat.add_left_comm]

/-! ## C9 -/

/-- C9: the claim says `nextInt(max)` returns `floor(nextFloat(max))`
evaluated at the seed state and advances the seed like `nextFloat`.
The source's `nextInt` body computes `Math.floor(this.nextFloat(max))`
but has no `return` statement, so at seed `1`, `max = 10` it returns
`undefined` (`none`) — while advancing the seed to `2` exactly as
`nextFloat` does, and while the floor it computed and discarded is
`5`, the value the spec's `nextIntSpec` returns. -/
theorem claim_C9_thm :
    nextInt 1 (some 10) = (none, 2) ∧
    nextIntSpec 1 (some 10) = (some 5, 2) ∧
    (nextFloat 1 (some 10)).2 = 2 := by
  refine ⟨rfl, ?_, rfl⟩
  have ht : Int.tmod 29709560381371293045176 2038074743 = 1122362985 := by decide
  show (some ((⌊(nextFloat 1 (some 10)).1⌋ : ℤ) : ℚ), (2 : ℤ)) = (some 5, 2)
  norm_num [nextFloat, ht]

/-! ## C4 -/

/-- C4 counterexample: the claim says the stored weight equals the
caller-supplied `w`; the `Tile` constructor stores `w / 10`, so the
tile built with weight `10` stores `1`, not `10`. -/
theorem claim_C4_cex : (mkTile 0 [1, 1, 1, 1] 10).weight ≠ 10 := by
  show (10 : ℚ) / 10 ≠ 10
  norm_num

/-- C4 (amended): for every `Tile` constructed with payload, sockets
and positive weight `w`, the stored weight equals `w / 10` and the
precomputed entropy contribution equals
`-(w/10) * log2 (w/10)` — the formula of the spec applied to the
*stored* weight, not to the caller's `w`. -/
theorem claim_C4_thm (v : ℕ) (sk : List ℕ) (w : ℚ) (_hw : 0 < w) :
    (mkTile v sk w).weight = w / 10 ∧
    (mkTile v sk w).entropy =
      -((w / 10 : ℚ) : ℝ) * Real.logb 2 ((w / 10 : ℚ) : ℝ) :=
  ⟨rfl, rfl⟩

/-- C4 witness: the amended claim evaluated at weight `7`. -/
theorem claim_C4_witness :
    (mkTile 1 [2, 2, 2, 2] 7).weight = 7 / 10 ∧
    (mkTile 1 [2, 2, 2, 2] 7).entropy =
      -((7 / 10 : ℚ) : ℝ) * Real.logb 2 ((7 / 10 : ℚ) : ℝ) :=
  claim_C4_thm 1 [2, 2, 2, 2] 7 (by norm_num)

/-! ## C2 -/

/-- A concrete 3×2 wrapping grid for the boundary claims. -/
def c2Grid : Grid ℕ := ⟨3, 2, true, [10, 20, 30, 40, 50, 60]⟩

/-- C2 counterexample: on the 3×2 grid with wrapping enabled the claim
demands a left neighbor at `(N-1, 0) = (2, 0)` and an up neighbor at
`(0, M-1) = (0, 1)`.  The source never reduces coordinates modulo the
dimensions: `getAdjacent(0,0)` yields the raw offsets `(0,-1)` and
`(-1,0)`, no descriptor at `(2,0)` exists, the up-direction descriptor
is at `(0,-1)`, and a wrapped `get` at `(-1,0)` reads an unset slot
(`undefined`) instead of the last column. -/
theorem claim_C2_cex :
    ((gridGetAdjacent c2Grid 0 0).map fun a => (a.x, a.y)) =
        [(0, -1), (1, 0), (0, 1), (-1, 0)] ∧
    (∀ a ∈ gridGetAdjacent c2Grid 0 0, ¬(a.x = 2 ∧ a.y = 0)) ∧
    (∀ a ∈ gridGetAdjacent c2Grid 0 0, a.direction = 0 → (a.x, a.y) = (0, -1)) ∧
    gridGet c2Grid (-1) 0 = none := by
  refine ⟨rfl, ?_, ?_, rfl⟩ <;> decide

/-- C2 (amended): with wrapping enabled the bounds check accepts every
coordinate but no modulo reduction happens, so `getAdjacent(0,0)` on
any N×M grid returns the four raw-offset descriptors
`(0,-1), (1,0), (0,1), (-1,0)`; with wrapping disabled a corner cell
returns strictly fewer than 4 neighbor descriptors. -/
theorem claim_C2_thm (N M : ℕ) (itemsW itemsN : List ℕ) :
    ((gridGetAdjacent (⟨N, M, true, itemsW⟩ : Grid ℕ) 0 0).map fun a => (a.x, a.y)) =
        [(0, -1), (1, 0), (0, 1), (-1, 0)] ∧
    (gridGetAdjacent (⟨N, M, false, itemsN⟩ : Grid ℕ) 0 0).length < 4 := by
  constructor
  · rfl
  · rw [show gridGetAdjacent (⟨N, M, false, itemsN⟩ : Grid ℕ) 0 0 =
        [((0 : ℕ), (⟨0, -1, 0, 2⟩ : Offset)), (1, ⟨1, 0, 1, 3⟩), (2, ⟨0, 1, 2, 0⟩),
          (3, ⟨-1, 0, 3, 1⟩)].filterMap (fun io =>
            if verifyBounds (⟨N, M, false, itemsN⟩ : Grid ℕ) (io.2.ox + 0) (io.2.oy + 0) then
              some ⟨io.2.ox + 0, io.2.oy + 0,
                (io.2.ox + 0) + (io.2.oy + 0) * ((⟨N, M, false, itemsN⟩ : Grid ℕ).dimX : ℤ),
                io.1, io.2.opposite⟩
            else none) from rfl]
    simp only [List.filterMap_cons, List.filterMap_nil]
    have hup : verifyBounds (⟨N, M, false, itemsN⟩ : Grid ℕ) (0 + 0) (-1 + 0) = false := by
      simp [verifyBounds]
    have hleft : verifyBounds (⟨N, M, false, itemsN⟩ : Grid ℕ) (-1 + 0) (0 + 0) = false := by
      simp [verifyBounds]
    rw [hup, hleft]
    by_cases h1 : verifyBounds (⟨N, M, false, itemsN⟩ : Grid ℕ) 1 0 = true <;>
      by_cases h2 : verifyBounds (⟨N, M, false, itemsN⟩ : Grid ℕ) 0 1 = true <;>
        simp [h1, h2]

/-! ## C8 -/

/-- C8 counterexample: the claim says construction with an empty
catalog, a zero-area grid or a non-positive weight is rejected
fatally.  The constructor validates nothing: with an empty catalog it
builds a full 2×2 grid of cells whose admissible sets are empty and
whose `isCollapsed` check is false (so `run` would proceed to attempt
a collapse); a tile with weight `-5` is built and stores `-1/2`; a
zero-area grid is built with an empty cell array (on which `run`
returns immediately instead of reporting anything). -/
theorem claim_C8_cex :
    (mkWfc [] 2 2 7 1).grid.items.length = 4 ∧
    isCollapsedB (mkWfc [] 2 2 7 1) = false ∧
    ((mkWfc [] 2 2 7 1).grid.items.map fun c => c.options) =
      [some [], some [], some [], some []] ∧
    (mkTile 3 [1, 1, 1, 1] (-5)).weight = -(1 / 2 : ℚ) ∧
    (mkWfc [mkTile 3 [1, 1, 1, 1] 1] 0 4 7 1).grid.items.length = 0 := by
  refine ⟨rfl, rfl, rfl, ?_, rfl⟩
  show (-5 : ℚ) / 10 = -(1 / 2 : ℚ)
  norm_num

/-- C8 (amended): the constructor performs no configuration
validation.  For every input — empty catalog, zero-area dimensions,
non-positive weights included — it returns a fully built engine state:
a `width*height` cell array, every cell uncollapsed with the whole
(possibly empty) tile-index list, and `Tile` stores `w / 10` for every
caller weight `w` without any sign check. -/
theorem claim_C8_thm (tiles : List Tile) (w h : ℕ) (sd o : ℤ) (v : ℕ)
    (sk : List ℕ) (q : ℚ) :
    (mkWfc tiles w h sd o).grid.items.length = w * h ∧
    (∀ c ∈ (mkWfc tiles w h sd o).grid.items,
      c.isCollapsed = false ∧ c.options = some (List.range tiles.length)) ∧
    (mkTile v sk q).weight = q / 10 := by
  refine ⟨mkCellsAux_length _ _ _ _ _ _, ?_, rfl⟩
  intro c hc
  have h := mkCellsAux_mem (List.range (defineAdjacencies tiles).length) _ _ _
    (w * h) (setSeed sd o) c hc
  rwa [defineAdjacencies_length] at h

/-! ## C6 -/

/-- C6 (amended): `isCollapsed()` returns `true` iff every cell's
`collapsed` flag is set; the method only reads the grid and performs
no defensive regeneration — the engine state after the call is the
state before it, even when a cell's admissible set is empty. -/
theorem claim_C6_thm (s : Wfc) :
    (isCollapsedB s = true ↔ ∀ c ∈ s.grid.items, c.isCollapsed = true) ∧
    (isCollapsedCall s).2 = s := by
  refine ⟨?_, rfl⟩
  unfold isCollapsedB
  rw [foldl_uncollapsed_count]
  simp [List.countP_eq_zero]

/-- A one-tile catalog entry for the C6 scenario. -/
noncomputable def c6Tile : Tile :=
  { value := 0, sockets := [1, 1, 1, 1], weight := 1 / 10
    validAdjacent := [[0], [0], [0], [0]], entropy := 0 }

/-- An engine state whose single cell has an empty admissible set that
was never caught: exactly the situation the claim says `isCollapsed()`
defends against by regenerating. -/
noncomputable def c6Bad : Wfc :=
  { width := 1, height := 1, widthTimesHeight := 1, noiseModifier := 1 / 10 ^ 12
    tiles := [c6Tile], rng := 3
    grid := ⟨1, 1, false,
      [{ value := none, sockets := none, options := some [], validAdjacent := none
         entropy := ((0 : ℝ) : WithTop ℝ), sumOfWeights := 0, isCollapsed := false }]⟩
    amountCollapsedCells := 0 }

/-- C6 counterexample: on a state holding an uncollapsed cell with an
empty admissible set, `isCollapsed()` merely reports `false`; the
state after the call is unchanged and is *not* the regenerated grid
the claim promises (the regenerated grid's cell would hold the full
index list `[0]`). -/
theorem claim_C6_cex :
    (∃ c ∈ c6Bad.grid.items, c.options = some [] ∧ c.isCollapsed = false) ∧
    isCollapsedB c6Bad = false ∧
    (isCollapsedCall c6Bad).2 = c6Bad ∧
    (isCollapsedCall c6Bad).2 ≠ regenerateGrid c6Bad := by
  refine ⟨⟨_, List.mem_cons_self _ _, rfl, rfl⟩, rfl, rfl, ?_⟩
  intro h
  have h2 := congrArg (fun t => t.grid.items.map fun c => c.options) h
  have h3 : ((isCollapsedCall c6Bad).2.grid.items.map fun c => c.options) =
      [some []] := rfl
  have h4 : ((regenerateGrid c6Bad).grid.items.map fun c => c.options) =
      [some [0]] := rfl
  dsimp only at h2
  rw [h3, h4] at h2
  simp at h2

/-! ## C7 -/

/-- C7 (amended): for an identical tile catalog, identical dimensions
and an identical *nonzero* seed, two engine constructions agree
exactly — whatever value the system-randomness oracle would have
produced — and hence entire runs (collapsed grid and regeneration
count included) are identical.  The nonzero proviso is forced: `0` is
falsy in JS, so `setSeed(0)` falls back to `Math.random()`. -/
theorem claim_C7_thm (tiles : List Tile) (w h : ℕ) (sd o₁ o₂ : ℤ)
    (sdArg : Option ℤ) (n pf : ℕ) (hsd : sd ≠ 0) :
    mkWfc tiles w h sd o₁ = mkWfc tiles w h sd o₂ ∧
    runWfc sdArg n pf (mkWfc tiles w h sd o₁) =
      runWfc sdArg n pf (mkWfc tiles w h sd o₂) := by
  have hs : setSeed sd o₁ = setSeed sd o₂ := by simp [setSeed, hsd]
  have h1 : mkWfc tiles w h sd o₁ = mkWfc tiles w h sd o₂ := by
    unfold mkWfc
    rw [hs]
  exact ⟨h1, by rw [h1]⟩

/-- C7 witness: the amended determinism claim at seed `3`, oracles
`11` and `22`. -/
theorem claim_C7_witness :
    mkWfc [] 2 2 3 11 = mkWfc [] 2 2 3 22 ∧
    runWfc none 5 5 (mkWfc [] 2 2 3 11) = runWfc none 5 5 (mkWfc [] 2 2 3 22) :=
  claim_C7_thm [] 2 2 3 11 22 none 5 5 (by decide)

/-- A one-tile catalog entry for the C7 scenario. -/
noncomputable def c7Tile : Tile :=
  { value := 0, sockets := [1, 1, 1, 1], weight := 1 / 10
    validAdjacent := [[], [], [], []], entropy := 0 }

/-- C7 counterexample: with the fixed seed `0` — a perfectly fixed
input, but falsy in JS — `setSeed` substitutes `Math.random()`
(the oracle), so two runs of the same construction can observe
different oracles and end with different PRNG states: the draw
sequences are not reproducible for seed `0`. -/
theorem claim_C7_cex :
    (mkWfc [c7Tile] 1 1 0 5).rng ≠ (mkWfc [c7Tile] 1 1 0 6).rng := by
  have h1 : (mkWfc [c7Tile] 1 1 0 5).rng = 6 := rfl
  have h2 : (mkWfc [c7Tile] 1 1 0 6).rng = 7 := rfl
  rw [h1, h2]
  decide

/-! ## C10 -/

/-- Each sweep appends any given legal candidate index exactly once
per direction (the candidate loop runs over the catalog once and
`range` has no duplicates). -/
lemma count_matchingAdjacent (tiles : List Tile) (t : Tile) (d j : ℕ) :
    List.count j (matchingAdjacent tiles t d) =
      if t.sockets[d]? = (getTileD tiles j).sockets[(engineOpp d)]? ∧ j < tiles.length
      then 1 else 0 := by
  unfold matchingAdjacent
  rw [List.count_eq_of_nodup ((List.nodup_range tiles.length).filter _)]
  by_cases he : t.sockets[d]? = (getTileD tiles j).sockets[(engineOpp d)]? <;>
    by_cases hj : j < tiles.length <;>
      simp [List.mem_filter, List.mem_range, he, hj]

/-- One sweep of `defineAdjacencies`, read back at catalog index
`i`. -/
lemma defineAdjacencies_getD (tiles : List Tile) (i : ℕ) (hi : i < tiles.length) :
    (defineAdjacencies tiles).getD i dTile =
      { tiles.getD i dTile with
        validAdjacent := (List.range (tiles.getD i dTile).sockets.length).map fun d =>
          (tiles.getD i dTile).validAdjacent.getD d [] ++
            matchingAdjacent tiles (tiles.getD i dTile) d } := by
  unfold defineAdjacencies
  rw [List.getD_eq_getElem?_getD, List.getElem?_map, List.getElem?_eq_getElem hi,
    List.getD_eq_getElem?_getD, List.getElem?_eq_getElem hi]
  rfl

/-- `defineAdjacencies` never touches the sockets. -/
lemma defineAdjacencies_sockets (tiles : List Tile) (i : ℕ) :
    ((defineAdjacencies tiles).getD i dTile).sockets = (tiles.getD i dTile).sockets := by
  by_cases hi : i < tiles.length
  · rw [defineAdjacencies_getD tiles i hi]
  · rw [List.getD_eq_default _ _ (by simpa [defineAdjacencies_length] using Nat.le_of_not_lt hi),
      List.getD_eq_default _ _ (Nat.le_of_not_lt hi)]

/-- One sweep appends the matching candidates to the direction-`d`
list in place. -/
lemma defineAdjacencies_vAdj (tiles : List Tile) (i d : ℕ) (hi : i < tiles.length)
    (hd : d < (tiles.getD i dTile).sockets.length) :
    ((defineAdjacencies tiles).getD i dTile).validAdjacent.getD d [] =
      (tiles.getD i dTile).validAdjacent.getD d [] ++
        matchingAdjacent tiles (tiles.getD i dTile) d := by
  rw [defineAdjacencies_getD tiles i hi]
  show ((List.range _).map _).getD d [] = _
  rw [List.getD_eq_getElem?_getD, List.getElem?_map, List.getElem?_range hd]
  rfl

/-- Catalog length across repeated sweeps. -/
lemma iterate_defAdj_length (tiles : List Tile) (k : ℕ) :
    ((defineAdjacencies)^[k] tiles).length = tiles.length := by
  induction k with
  | zero => rfl
  | succ k ih => rw [Function.iterate_succ_apply', defineAdjacencies_length, ih]

/-- Sockets across repeated sweeps. -/
lemma iterate_defAdj_sockets (tiles : List Tile) (k i : ℕ) :
    (((defineAdjacencies)^[k] tiles).getD i dTile).sockets =
      (tiles.getD i dTile).sockets := by
  induction k with
  | zero => rfl
  | succ k ih => rw [Function.iterate_succ_apply', defineAdjacencies_sockets, ih]

/-- The matching candidates depend only on the sockets and the catalog
length, so they are identical in every sweep. -/
lemma matchingAdjacent_congr (tiles₁ tiles₂ : List Tile) (t₁ t₂ : Tile) (d : ℕ)
    (hlen : tiles₂.length = tiles₁.length)
    (hsock : ∀ j, (getTileD tiles₂ j).sockets = (getTileD tiles₁ j).sockets)
    (ht : t₂.sockets = t₁.sockets) :
    matchingAdjacent tiles₂ t₂ d = matchingAdjacent tiles₁ t₁ d := by
  unfold matchingAdjacent
  rw [hlen]
  apply List.filter_congr
  intro j _
  rw [ht, hsock j]

/-- After `k` sweeps over an initially fresh catalog, each legal
candidate index appears exactly `k` times in each `validAdjacent`
list. -/
lemma iterate_defAdj_count (tiles : List Tile) (k i d j : ℕ)
    (hfresh : ∀ t ∈ tiles, t.validAdjacent = List.replicate t.sockets.length [])
    (hi : i < tiles.length) (hd : d < (tiles.getD i dTile).sockets.length) :
    List.count j ((((defineAdjacencies)^[k] tiles).getD i dTile).validAdjacent.getD d []) =
      if (tiles.getD i dTile).sockets[d]? =
          (getTileD tiles j).sockets[(engineOpp d)]? ∧ j < tiles.length
      then k else 0 := by
  induction k with
  | zero =>
    have hmem : tiles.getD i dTile ∈ tiles := by
      rw [List.getD_eq_getElem tiles dTile hi]
      exact List.getElem_mem hi
    rw [Function.iterate_zero, id, hfresh _ hmem, List.getD_eq_getElem?_getD,
      List.getElem?_replicate]
    split <;> simp
  | succ k ih =>
    rw [Function.iterate_succ_apply']
    have hlen : ((defineAdjacencies)^[k] tiles).length = tiles.length :=
      iterate_defAdj_length tiles k
    have hsock := iterate_defAdj_sockets tiles k
    rw [defineAdjacencies_vAdj _ i d (by rw [hlen]; exact hi)
      (by rw [hsock i]; exact hd)]
    rw [List.count_append, ih]
    rw [matchingAdjacent_congr tiles _ (tiles.getD i dTile) _ d hlen hsock (hsock i)]
    rw [count_matchingAdjacent]
    by_cases hc : (tiles.getD i dTile).sockets[d]? =
        (getTileD tiles j).sockets[(engineOpp d)]? ∧ j < tiles.length
    · rw [if_pos hc, if_pos hc, if_pos hc]
    · rw [if_neg hc, if_neg hc, if_neg hc]

/-- C10: `defineAdjacencies` appends into the caller-supplied tiles'
`validAdjacent` arrays instead of building a fresh table (modelled
functionally: the engine's catalog is `defineAdjacencies` applied to
the caller's tiles, so constructing over already-compiled tiles
composes the sweep).  After `k` constructions over an initially fresh
catalog, each legal candidate index appears exactly `k` times in each
direction's list — duplicated adjacency entries. -/
theorem claim_C10_thm (tiles : List Tile) (k i d j w h : ℕ) (sd o : ℤ)
    (hfresh : ∀ t ∈ tiles, t.validAdjacent = List.replicate t.sockets.length [])
    (hi : i < tiles.length) (hd : d < (tiles.getD i dTile).sockets.length) :
    (mkWfc tiles w h sd o).tiles = defineAdjacencies tiles ∧
    List.count j ((((defineAdjacencies)^[k] tiles).getD i dTile).validAdjacent.getD d []) =
      if (tiles.getD i dTile).sockets[d]? =
          (getTileD tiles j).sockets[(engineOpp d)]? ∧ j < tiles.length
      then k else 0 :=
  ⟨rfl, iterate_defAdj_count tiles k i d j hfresh hi hd⟩

/-- A fresh two-tile catalog for the C10 witness. -/
noncomputable def c10Tiles : List Tile :=
  [mkTile 1 [1, 1, 1, 1] 10, mkTile 2 [1, 2, 1, 2] 10]

/-- C10 witness: two constructions over the same fresh catalog leave
tile 0's right-direction list holding candidate 0 twice. -/
theorem claim_C10_witness :
    (mkWfc c10Tiles 2 2 5 1).tiles = defineAdjacencies c10Tiles ∧
    List.count 0 ((((defineAdjacencies)^[2] c10Tiles).getD 0 dTile).validAdjacent.getD 1 []) =
      if (c10Tiles.getD 0 dTile).sockets[1]? =
          (getTileD c10Tiles 0).sockets[(engineOpp 1)]? ∧ 0 < c10Tiles.length
      then 2 else 0 :=
  claim_C10_thm c10Tiles 2 0 1 0 2 2 5 1
    (by
      intro t ht
      simp only [c10Tiles, List.mem_cons, List.not_mem_nil, or_false] at ht
      rcases ht with h | h <;> subst h <;> rfl)
    (by decide) (by decide)

/-! ## C5 -/

/-- The entropy reduce with an arbitrary accumulator. -/
lemma foldl_add_entropy (l : List Tile) (a : ℝ) :
    l.foldl (fun x t => x + t.entropy) a = a + (l.map Tile.entropy).sum := by
  induction l generalizing a with
  | nil => simp
  | cons t ts ih => simp [ih, add_assoc]

/-- `getEntropyByIndices` as a sum over the selected tiles. -/
lemma entropyByIndices_eq_sum (tiles : List Tile) (ixs : List ℕ) :
    entropyByIndices tiles ixs = ((getTiles tiles ixs).map Tile.entropy).sum := by
  unfold entropyByIndices
  rw [foldl_add_entropy, zero_add]

/-- Selecting by a smaller index set can only lower the entropy sum
when every contribution is positive. -/
lemma sum_getTilesAux_le (ts : List Tile) (old new : List ℕ)
    (hsub : ∀ j, new.contains j = true → old.contains j = true)
    (hpos : ∀ t ∈ ts, 0 < t.entropy) :
    ∀ i, ((getTilesAux new i ts).map Tile.entropy).sum ≤
      ((getTilesAux old i ts).map Tile.entropy).sum := by
  induction ts with
  | nil => intro i; simp [getTilesAux]
  | cons t ts ih =>
    intro i
    have hpos' : ∀ u ∈ ts, 0 < u.entropy := fun u hu => hpos u (List.mem_cons_of_mem _ hu)
    have iht := ih hpos' (i + 1)
    unfold getTilesAux
    by_cases hn : new.contains i = true
    · rw [if_pos hn, if_pos (hsub i hn)]
      simp only [List.map_cons, List.sum_cons]
      exact add_le_add_left iht _
    · rw [if_neg hn]
      by_cases ho : old.contains i = true
      · rw [if_pos ho]
        simp only [List.map_cons, List.sum_cons]
        have he : (0 : ℝ) ≤ t.entropy := (hpos t (List.mem_cons_self _ _)).le
        linarith
      · rw [if_neg ho]
        exact iht

/-- Dropping an actually-selected index strictly lowers the entropy
sum when every contribution is positive. -/
lemma sum_getTilesAux_lt (ts : List Tile) (old new : List ℕ) (x : ℕ)
    (hsub : ∀ j, new.contains j = true → old.contains j = true)
    (hpos : ∀ t ∈ ts, 0 < t.entropy)
    (hxo : old.contains x = true) (hxn : new.contains x = false) :
    ∀ i, i ≤ x → x < i + ts.length →
      ((getTilesAux new i ts).map Tile.entropy).sum <
        ((getTilesAux old i ts).map Tile.entropy).sum := by
  induction ts with
  | nil => intro i hxi hxl; simp at hxl; omega
  | cons t ts ih =>
    intro i hxi hxl
    have hpos' : ∀ u ∈ ts, 0 < u.entropy := fun u hu => hpos u (List.mem_cons_of_mem _ hu)
    have he : (0 : ℝ) < t.entropy := hpos t (List.mem_cons_self _ _)
    unfold getTilesAux
    by_cases hix : x = i
    · subst hix
      rw [if_pos hxo, if_neg (by rw [hxn]; exact Bool.false_ne_true)]
      simp only [List.map_cons, List.sum_cons]
      have hle := sum_getTilesAux_le ts old new hsub hpos' (x + 1)
      linarith
    · have hxi' : i + 1 ≤ x := by omega
      have hxl' : x < (i + 1) + ts.length := by
        simp only [List.length_cons] at hxl
        omega
      have iht := ih hpos' (i + 1) hxi' hxl'
      by_cases hn : new.contains i = true
      · rw [if_pos hn, if_pos (hsub i hn)]
        simp only [List.map_cons, List.sum_cons]
        linarith
      · rw [if_neg hn]
        by_cases ho : old.contains i = true
        · rw [if_pos ho]
          simp only [List.map_cons, List.sum_cons]
          linarith
        · rw [if_neg ho]
          exact iht

/-- A strictly shorter filter output misses some member. -/
lemma exists_dropped (opts : List ℕ) (pr : ℕ → Bool)
    (h : (opts.filter pr).length < opts.length) : ∃ x ∈ opts, pr x = false := by
  by_contra hno
  push_neg at hno
  have heq : opts.filter pr = opts := List.filter_eq_self.mpr fun a ha => by
    have h' := hno a ha
    cases hpa : pr a with
    | false => exact absurd hpa h'
    | true => rfl
  rw [heq] at h
  exact lt_irrefl _ h

/-- C5 (amended): the entropy recomputed after a strict shrink of the
admissible set is strictly smaller than the sum over the old set
*provided every tile's entropy contribution is positive* — for tiles
built by the constructor that means a stored weight strictly between
0 and 1, i.e. a caller weight strictly between 0 and 10; positive
weights alone do not suffice.  A collapsed cell's entropy key is `⊤`,
strictly above every uncollapsed (finite) key, so a collapsed cell
never wins the lowest-entropy scan. -/
theorem claim_C5_thm (tiles : List Tile) (opts : List ℕ) (pr : ℕ → Bool)
    (c : Cell) (t : Tile) (r : ℝ) (v : ℕ) (sk : List ℕ) (q : ℚ)
    (hix : ∀ i ∈ opts, i < tiles.length)
    (hpos : ∀ u ∈ tiles, 0 < u.entropy)
    (hshrink : (opts.filter pr).length < opts.length)
    (hq0 : 0 < q) (hq10 : q < 10) :
    entropyByIndices tiles (opts.filter pr) < entropyByIndices tiles opts ∧
    (collapseCell c t).entropy = ⊤ ∧
    ((r : WithTop ℝ)) < (collapseCell c t).entropy ∧
    0 < (mkTile v sk q).entropy := by
  refine ⟨?_, rfl, WithTop.coe_lt_top r, ?_⟩
  · obtain ⟨x, hx, hpx⟩ := exists_dropped opts pr hshrink
    rw [entropyByIndices_eq_sum, entropyByIndices_eq_sum]
    refine sum_getTilesAux_lt tiles opts (opts.filter pr) x ?_ hpos ?_ ?_ 0
      (Nat.zero_le x) ?_
    · intro j hj
      have hjm : j ∈ opts := List.mem_of_mem_filter (by
        simpa [List.elem_iff] using hj)
      simpa [List.elem_iff] using hjm
    · simpa [List.elem_iff] using hx
    · rw [Bool.eq_false_iff]
      intro hmem
      have hjm := List.mem_filter.mp (by simpa [List.elem_iff] using hmem)
      rw [hpx] at hjm
      exact Bool.false_ne_true hjm.2
    · simpa using hix x hx
  · show (0 : ℝ) < -((q / 10 : ℚ) : ℝ) * Real.logb 2 ((q / 10 : ℚ) : ℝ)
    have hx0 : (0 : ℝ) < ((q / 10 : ℚ) : ℝ) := by
      rw [Rat.cast_pos]
      positivity
    have hx1 : ((q / 10 : ℚ) : ℝ) < 1 := by
      have : (q / 10 : ℚ) < 1 := by linarith [hq10]
      calc ((q / 10 : ℚ) : ℝ) < ((1 : ℚ) : ℝ) := by
            rwa [Rat.cast_lt]
        _ = 1 := by norm_num
    have hlog : Real.logb 2 ((q / 10 : ℚ) : ℝ) < 0 :=
      Real.logb_neg (by norm_num) hx0 hx1
    nlinarith

/-- A three-tile catalog with explicit positive entropy contributions
for the C5 witness. -/
noncomputable def c5WTiles : List Tile :=
  [{ value := 0, sockets := [1, 1, 1, 1], weight := 1 / 10
     validAdjacent := [[], [], [], []], entropy := 1 },
   { value := 1, sockets := [1, 1, 1, 1], weight := 1 / 10
     validAdjacent := [[], [], [], []], entropy := 1 }]

/-- C5 witness: the amended claim at a concrete shrink (`[0,1]`
filtered to `[0]`) over positive contributions, and the constructor
tile at caller weight `1` (stored weight `1/10 ∈ (0,1)`). -/
theorem claim_C5_witness :
    entropyByIndices c5WTiles ([0, 1].filter fun i => i == 0) <
      entropyByIndices c5WTiles [0, 1] ∧
    (collapseCell dCell (c5WTiles.getD 0 dTile)).entropy = ⊤ ∧
    (((3 : ℝ) : WithTop ℝ)) < (collapseCell dCell (c5WTiles.getD 0 dTile)).entropy ∧
    0 < (mkTile 0 [1, 1, 1, 1] 1).entropy :=
  claim_C5_thm c5WTiles [0, 1] (fun i => i == 0) dCell (c5WTiles.getD 0 dTile) 3 0 [1, 1, 1, 1] 1
    (by decide)
    (by
      intro u hu
      simp only [c5WTiles, List.mem_cons, List.not_mem_nil, or_false] at hu
      rcases hu with h | h <;> subst h <;> norm_num)
    (by decide) (by norm_num) (by norm_num)

/-! ## Frame lemmas for the propagation proofs -/

/-- Well-formedness every engine-built grid enjoys: wrapping disabled
(the engine never passes the flag) and a dense item array. -/
def GridWF (s : Wfc) : Prop :=
  s.grid.isWrappingAllowed = false ∧
  s.grid.items.length = s.grid.dimX * s.grid.dimY

/-- The neighbor descriptors of a coordinate in the engine's grid. -/
def adjOf (s : Wfc) (p : ℤ × ℤ) : List Adj := gridGetAdjacent s.grid p.1 p.2

/-- Cell writes do not change the adjacency structure. -/
lemma gridGetAdjacent_set (g : Grid Cell) (x y : ℤ) (v : Cell) (px py : ℤ) :
    gridGetAdjacent (gridSet g x y v) px py = gridGetAdjacent g px py := by
  unfold gridSet
  split
  · split <;> rfl
  · rfl

/-- `adjOf` through `updCell`. -/
lemma adjOf_updCell (s : Wfc) (x y : ℤ) (c : Cell) (p : ℤ × ℤ) :
    adjOf (updCell s x y c) p = adjOf s p :=
  gridGetAdjacent_set _ _ _ _ _ _

/-- The bounds check, unfolded, when wrapping is disabled. -/
lemma verifyBounds_iff {α} (g : Grid α) (hwrap : g.isWrappingAllowed = false)
    (x y : ℤ) :
    verifyBounds g x y = true ↔
      0 ≤ x ∧ 0 ≤ y ∧ x < (g.dimX : ℤ) ∧ y < (g.dimY : ℤ) := by
  unfold verifyBounds
  rw [hwrap]
  simp [and_assoc]

/-- Row-major indices of distinct in-bounds columns/rows differ. -/
lemma rowMajor_inj {w x1 y1 x2 y2 : ℤ}
    (hx1 : 0 ≤ x1) (hx1w : x1 < w) (hx2 : 0 ≤ x2) (hx2w : x2 < w)
    (heq : x1 + y1 * w = x2 + y2 * w) : x1 = x2 ∧ y1 = y2 := by
  have hy : y1 = y2 := by
    rcases lt_trichotomy y1 y2 with h | h | h
    · exfalso
      have h1 : y1 + 1 ≤ y2 := h
      have h2 : (y1 + 1) * w ≤ y2 * w :=
        mul_le_mul_of_nonneg_right h1 (by linarith)
      nlinarith
    · exact h
    · exfalso
      have h1 : y2 + 1 ≤ y1 := h
      have h2 : (y2 + 1) * w ≤ y1 * w :=
        mul_le_mul_of_nonneg_right h1 (by linarith)
      nlinarith
  refine ⟨?_, hy⟩
  rw [hy] at heq
  linarith

/-- A cast-friendly `toNat` bound. -/
lemma toNat_lt_of_lt {a : ℤ} {n : ℕ} (h0 : 0 ≤ a) (h : a < (n : ℤ)) : a.toNat < n := by
  omega

/-- The dimensions survive a `gridSet`. -/
lemma gridSet_dims (g : Grid Cell) (x y : ℤ) (v : Cell) :
    (gridSet g x y v).dimX = g.dimX ∧ (gridSet g x y v).dimY = g.dimY ∧
    (gridSet g x y v).isWrappingAllowed = g.isWrappingAllowed := by
  unfold gridSet
  split
  · split <;> exact ⟨rfl, rfl, rfl⟩
  · exact ⟨rfl, rfl, rfl⟩

/-- Grid well-formedness survives a cell write. -/
lemma GridWF_updCell (s : Wfc) (x y : ℤ) (c : Cell) (h : GridWF s) :
    GridWF (updCell s x y c) := by
  obtain ⟨hwrap, hlen⟩ := h
  unfold GridWF updCell gridSet
  split
  · split
    · exact ⟨hwrap, by simpa using hlen⟩
    · exact ⟨hwrap, hlen⟩
  · exact ⟨hwrap, hlen⟩

/-- Nonnegativity of a row-major index of in-bounds coordinates. -/
lemma gridIndex_nonneg {α} (g : Grid α) {x y : ℤ}
    (hx : 0 ≤ x) (hy : 0 ≤ y) : (0 : ℤ) ≤ gridIndex g x y := by
  unfold gridIndex
  have hw : (0 : ℤ) ≤ (g.dimX : ℤ) := Int.ofNat_nonneg _
  nlinarith

/-- Reading any grid that differs from `g` only in its item array. -/
lemma gridGet_mk_items {α} (g : Grid α) (l : List α) (x y : ℤ) :
    gridGet (⟨g.dimX, g.dimY, g.isWrappingAllowed, l⟩ : Grid α) x y =
      if verifyBounds g x y then
        if 0 ≤ gridIndex g x y then l[(gridIndex g x y).toNat]? else none
      else none := rfl

/-- `gridSet` in bounds rewritten as a plain item-array update. -/
lemma gridSet_eq_mk (g : Grid Cell) (x y : ℤ) (c : Cell)
    (hb : verifyBounds g x y = true) (hidx : 0 ≤ gridIndex g x y) :
    gridSet g x y c =
      (⟨g.dimX, g.dimY, g.isWrappingAllowed,
        g.items.set (gridIndex g x y).toNat c⟩ : Grid Cell) := by
  unfold gridSet
  rw [if_pos hb, if_pos hidx]

/-- Reading a different coordinate after a cell write (wrap disabled:
distinct in-bounds coordinates never alias, and out-of-bounds reads
are `undefined` both before and after). -/
lemma cellAt_updCell_ne (s : Wfc) (x y : ℤ) (c : Cell) (p : ℤ × ℤ)
    (hwrap : s.grid.isWrappingAllowed = false) (hne : p ≠ (x, y)) :
    cellAt (updCell s x y c) p = cellAt s p := by
  show ((gridGet (gridSet s.grid x y c) p.1 p.2).getD dCell) =
    ((gridGet s.grid p.1 p.2).getD dCell)
  by_cases hb : verifyBounds s.grid x y = true
  · obtain ⟨hx0, hy0, hxw, hyh⟩ := (verifyBounds_iff s.grid hwrap x y).mp hb
    have hidx : (0 : ℤ) ≤ gridIndex s.grid x y := gridIndex_nonneg _ hx0 hy0
    rw [gridSet_eq_mk s.grid x y c hb hidx, gridGet_mk_items]
    by_cases hbp : verifyBounds s.grid p.1 p.2 = true
    · obtain ⟨px0, py0, pxw, pyh⟩ := (verifyBounds_iff s.grid hwrap p.1 p.2).mp hbp
      have hidxp : (0 : ℤ) ≤ gridIndex s.grid p.1 p.2 := gridIndex_nonneg _ px0 py0
      have hget : gridGet s.grid p.1 p.2 =
          s.grid.items[(gridIndex s.grid p.1 p.2).toNat]? := by
        unfold gridGet
        rw [if_pos hbp, if_pos hidxp]
      rw [if_pos hbp, if_pos hidxp, hget]
      have hneidx : (gridIndex s.grid x y).toNat ≠ (gridIndex s.grid p.1 p.2).toNat := by
        intro hcontra
        apply hne
        have hcontra' : gridIndex s.grid x y = gridIndex s.grid p.1 p.2 := by omega
        unfold gridIndex at hcontra'
        obtain ⟨hxx, hyy⟩ := rowMajor_inj hx0 hxw px0 pxw hcontra'
        exact Prod.ext hxx.symm hyy.symm
      rw [List.getElem?_set_ne hneidx]
    · have hget : gridGet s.grid p.1 p.2 = none := by
        unfold gridGet
        rw [if_neg hbp]
      rw [if_neg hbp, hget]
  · have hset : gridSet s.grid x y c = s.grid := by
      unfold gridSet
      rw [if_neg hb]
    rw [hset]

/-- Reading back the written coordinate (in bounds, dense array). -/
lemma cellAt_updCell_self (s : Wfc) (x y : ℤ) (c : Cell)
    (hwf : GridWF s) (hb : verifyBounds s.grid x y = true) :
    cellAt (updCell s x y c) (x, y) = c := by
  obtain ⟨hwrap, hlen⟩ := hwf
  obtain ⟨hx0, hy0, hxw, hyh⟩ := (verifyBounds_iff s.grid hwrap x y).mp hb
  have hidx : (0 : ℤ) ≤ gridIndex s.grid x y := gridIndex_nonneg _ hx0 hy0
  show ((gridGet (gridSet s.grid x y c) x y).getD dCell) = c
  rw [gridSet_eq_mk s.grid x y c hb hidx, gridGet_mk_items, if_pos hb, if_pos hidx]
  have hltZ : gridIndex s.grid x y < ((s.grid.dimX * s.grid.dimY : ℕ) : ℤ) := by
    unfold gridIndex
    push_cast
    have hw : (0 : ℤ) ≤ (s.grid.dimX : ℤ) := Int.ofNat_nonneg _
    nlinarith [mul_le_mul_of_nonneg_right
      (show y + 1 ≤ (s.grid.dimY : ℤ) from by linarith)
      (show (0 : ℤ) ≤ (s.grid.dimX : ℤ) from hw)]
  have hlt : (gridIndex s.grid x y).toNat < s.grid.items.length := by
    rw [hlen]
    exact toNat_lt_of_lt hidx hltZ
  rw [List.getElem?_set_self (by simpa using hlt)]
  rfl

/-- A single offset case of `getAdjacent`. -/
lemma adj_case_helper {g : Grid Cell} {cx cy : ℤ} {d o : ℕ} {a : Adj}
    (hcond : (if verifyBounds g cx cy = true then
        some (⟨cx, cy, cx + cy * (g.dimX : ℤ), d, o⟩ : Adj) else none) = some a) :
    verifyBounds g a.x a.y = true ∧ a.x = cx ∧ a.y = cy := by
  by_cases hv : verifyBounds g cx cy = true
  · rw [if_pos hv] at hcond
    obtain rfl := Option.some_injective _ hcond
    exact ⟨hv, rfl, rfl⟩
  · rw [if_neg hv] at hcond
    simp at hcond

/-- A neighbor descriptor is in bounds and never the center coordinate
itself. -/
lemma mem_gridGetAdjacent {g : Grid Cell} {x y : ℤ} {a : Adj}
    (ha : a ∈ gridGetAdjacent g x y) :
    verifyBounds g a.x a.y = true ∧ (a.x, a.y) ≠ (x, y) := by
  unfold gridGetAdjacent at ha
  rw [List.mem_filterMap] at ha
  obtain ⟨io, hio, hcond⟩ := ha
  rw [show gridOffsets.enum =
      [((0 : ℕ), (⟨0, -1, 0, 2⟩ : Offset)), (1, ⟨1, 0, 1, 3⟩), (2, ⟨0, 1, 2, 0⟩),
        (3, ⟨-1, 0, 3, 1⟩)] from rfl] at hio
  simp only [List.mem_cons, List.not_mem_nil, or_false] at hio
  rcases hio with h | h | h | h <;> subst h <;>
    obtain ⟨hv, hax, hay⟩ := adj_case_helper hcond <;>
      refine ⟨hv, fun hpq => ?_⟩ <;>
        · rw [Prod.mk.injEq] at hpq
          obtain ⟨h1, h2⟩ := hpq
          dsimp only at hax hay
          omega

/-! ## C1 -/

/-- Equality of every engine field except the grid. -/
def sameExceptGrid (s s' : Wfc) : Prop :=
  s'.width = s.width ∧ s'.height = s.height ∧
  s'.widthTimesHeight = s.widthTimesHeight ∧
  s'.noiseModifier = s.noiseModifier ∧ s'.tiles = s.tiles ∧
  s'.rng = s.rng ∧ s'.amountCollapsedCells = s.amountCollapsedCells

lemma sameExceptGrid_refl (s : Wfc) : sameExceptGrid s s :=
  ⟨rfl, rfl, rfl, rfl, rfl, rfl, rfl⟩

lemma sameExceptGrid_trans {s1 s2 s3 : Wfc}
    (h : sameExceptGrid s1 s2) (h' : sameExceptGrid s2 s3) : sameExceptGrid s1 s3 := by
  obtain ⟨a1, a2, a3, a4, a5, a6, a7⟩ := h
  obtain ⟨b1, b2, b3, b4, b5, b6, b7⟩ := h'
  exact ⟨b1.trans a1, b2.trans a2, b3.trans a3, b4.trans a4, b5.trans a5,
    b6.trans a6, b7.trans a7⟩

lemma sameExceptGrid_updCell (s : Wfc) (x y : ℤ) (c : Cell) :
    sameExceptGrid s (updCell s x y c) :=
  ⟨rfl, rfl, rfl, rfl, rfl, rfl, rfl⟩

lemma sameExceptGrid_shrinkUpd (tiles : List Tile) (cell : Cell) (a : Adj) (s : Wfc) :
    sameExceptGrid s (shrinkUpd tiles cell a s) := by
  unfold shrinkUpd
  split <;> exact sameExceptGrid_updCell _ _ _ _

/-- `regenerateGrid` reads everything except the grid it replaces, so
two states that agree off-grid regenerate identically. -/
lemma regenerateGrid_congr {s s' : Wfc} (h : sameExceptGrid s s') :
    regenerateGrid s' = regenerateGrid s := by
  obtain ⟨h1, h2, h3, h4, h5, h6, h7⟩ := h
  cases s with
  | mk w hh wth nm tl rg gr acc =>
    cases s' with
    | mk w' hh' wth' nm' tl' rg' gr' acc' =>
      dsimp only at h1 h2 h3 h4 h5 h6 h7
      subst h1 h2 h3 h4 h5 h6 h7
      rfl

/-- A contradiction inside one neighbor check returns exactly the
regenerated current state. -/
lemma neighborStep_error_eq {tiles : List Tile} {cell : Cell} {a : Adj} {s : Wfc}
    {stack : List (ℤ × ℤ)} {e : Wfc}
    (h : neighborStep tiles cell a s stack = .error e) : e = regenerateGrid s := by
  unfold neighborStep at h
  split at h
  · split at h
    · cases h; rfl
    · cases h
  · split at h
    · split at h
      · cases h; rfl
      · split at h
        · cases h
        · cases h
    · cases h

/-- A successful neighbor check only writes the grid and only grows
the stack on top. -/
lemma neighborStep_ok_eq {tiles : List Tile} {cell : Cell} {a : Adj} {s : Wfc}
    {stack : List (ℤ × ℤ)} {s' : Wfc} {stack' : List (ℤ × ℤ)}
    (h : neighborStep tiles cell a s stack = .ok (s', stack')) :
    sameExceptGrid s s' ∧ (stack' = stack ∨ stack' = (a.x, a.y) :: stack) := by
  unfold neighborStep at h
  split at h
  · split at h
    · cases h
    · cases h
      exact ⟨sameExceptGrid_refl s, Or.inl rfl⟩
  · split at h
    · split at h
      · cases h
      · split at h
        · cases h
          exact ⟨sameExceptGrid_shrinkUpd _ _ _ _, Or.inr rfl⟩
        · cases h
          exact ⟨sameExceptGrid_refl s, Or.inl rfl⟩
    · cases h
      exact ⟨sameExceptGrid_refl s, Or.inl rfl⟩

/-- Neither the produced state nor the error value of one neighbor
check depends on the incoming stack. -/
lemma neighborStep_stack {tiles : List Tile} {cell : Cell} {a : Adj} {s : Wfc}
    (stack stack2 : List (ℤ × ℤ)) :
    (∀ e, neighborStep tiles cell a s stack = .error e →
      neighborStep tiles cell a s stack2 = .error e) ∧
    (∀ s' stack', neighborStep tiles cell a s stack = .ok (s', stack') →
      (stack' = stack ∧ neighborStep tiles cell a s stack2 = .ok (s', stack2)) ∨
      (stack' = (a.x, a.y) :: stack ∧
        neighborStep tiles cell a s stack2 = .ok (s', (a.x, a.y) :: stack2))) := by
  constructor
  · intro e h
    unfold neighborStep at h ⊢
    split at h
    · split at h
      · cases h
        rw [if_pos (by assumption), if_pos (by assumption)]
      · cases h
    · split at h
      · split at h
        · cases h
          rw [if_neg (by assumption), if_pos (by assumption), if_pos (by assumption)]
        · split at h <;> cases h
      · cases h
  · intro s' stack' h
    unfold neighborStep at h ⊢
    split at h
    · split at h
      · cases h
      · cases h
        left
        refine ⟨rfl, ?_⟩
        rw [if_pos (by assumption), if_neg (by assumption)]
    · split at h
      · split at h
        · cases h
        · split at h
          · cases h
            right
            refine ⟨rfl, ?_⟩
            rw [if_neg (by assumption), if_pos (by assumption), if_neg (by assumption),
              if_pos (by assumption)]
          · cases h
            left
            refine ⟨rfl, ?_⟩
            rw [if_neg (by assumption), if_pos (by assumption), if_neg (by assumption),
              if_neg (by assumption)]
      · cases h
        left
        refine ⟨rfl, ?_⟩
        rw [if_neg (by assumption), if_neg (by assumption)]

/-- The scan preserves the off-grid fields; an error value is always
the regeneration of a state that agrees with the scan's start state
off-grid, hence equals the regeneration of the start state itself. -/
lemma stepNeighbors_outcome (tiles : List Tile) (cell : Cell) :
    ∀ (as : List Adj) (s : Wfc) (st : List (ℤ × ℤ)),
      (∀ e, stepNeighbors tiles cell as s st = .error e → e = regenerateGrid s) ∧
      (∀ s' st', stepNeighbors tiles cell as s st = .ok (s', st') →
        sameExceptGrid s s') := by
  intro as
  induction as with
  | nil =>
    intro s st
    constructor
    · intro e h
      cases h
    · intro s' st' h
      cases h
      exact sameExceptGrid_refl s
  | cons a rest ih =>
    intro s st
    constructor
    · intro e h
      unfold stepNeighbors at h
      rcases hstep : neighborStep tiles cell a s st with e₀ | ⟨s₀, st₀⟩
      · rw [hstep] at h
        cases h
        exact neighborStep_error_eq hstep
      · rw [hstep] at h
        have he := (ih s₀ st₀).1 e h
        have hfields := (neighborStep_ok_eq hstep).1
        rw [he]
        exact regenerateGrid_congr hfields
    · intro s' st' h
      unfold stepNeighbors at h
      rcases hstep : neighborStep tiles cell a s st with e₀ | ⟨s₀, st₀⟩
      · rw [hstep] at h
        cases h
      · rw [hstep] at h
        exact sameExceptGrid_trans (neighborStep_ok_eq hstep).1 ((ih s₀ st₀).2 s' st' h)

/-- The scan's outcome — up to the pushed coordinates sitting on top
of whatever stack it started from — does not depend on that stack. -/
lemma stepNeighbors_stack (tiles : List Tile) (cell : Cell) :
    ∀ (as : List Adj) (s : Wfc) (st st2 : List (ℤ × ℤ)),
      (∀ e, stepNeighbors tiles cell as s st = .error e →
        stepNeighbors tiles cell as s st2 = .error e) ∧
      (∀ s' st', stepNeighbors tiles cell as s st = .ok (s', st') →
        ∃ pushed, st' = pushed ++ st ∧
          stepNeighbors tiles cell as s st2 = .ok (s', pushed ++ st2)) := by
  intro as
  induction as with
  | nil =>
    intro s st st2
    constructor
    · intro e h
      cases h
    · intro s' st' h
      cases h
      exact ⟨[], rfl, rfl⟩
  | cons a rest ih =>
    intro s st st2
    constructor
    · intro e h
      unfold stepNeighbors at h ⊢
      rcases hstep : neighborStep tiles cell a s st with e₀ | ⟨s₀, st₀⟩
      · rw [hstep] at h
        cases h
        rw [(neighborStep_stack st st2).1 _ hstep]
      · rw [hstep] at h
        rcases (neighborStep_stack st st2).2 _ _ hstep with ⟨hst, hs2⟩ | ⟨hst, hs2⟩
        · rw [hs2]
          subst hst
          exact (ih s₀ st₀ st2).1 e h
        · rw [hs2]
          subst hst
          have := (ih s₀ ((a.x, a.y) :: st) ((a.x, a.y) :: st2)).1 e h
          exact this
    · intro s' st' h
      unfold stepNeighbors at h ⊢
      rcases hstep : neighborStep tiles cell a s st with e₀ | ⟨s₀, st₀⟩
      · rw [hstep] at h
        cases h
      · rw [hstep] at h
        rcases (neighborStep_stack st st2).2 _ _ hstep with ⟨hst, hs2⟩ | ⟨hst, hs2⟩
        · rw [hs2]
          subst hst
          exact (ih s₀ st₀ st2).2 s' st' h
        · rw [hs2]
          subst hst
          obtain ⟨pushed, hp1, hp2⟩ :=
            (ih s₀ ((a.x, a.y) :: st) ((a.x, a.y) :: st2)).2 s' st' h
          refine ⟨pushed ++ [(a.x, a.y)], ?_, ?_⟩
          · rw [hp1]
            simp
          · show stepNeighbors tiles cell rest s₀ ((a.x, a.y) :: st2) =
              Except.ok (s', pushed ++ [(a.x, a.y)] ++ st2)
            rw [hp2]
            simp

/-- Scanning a concatenation runs the pieces in sequence. -/
lemma stepNeighbors_append (tiles : List Tile) (cell : Cell) (l₁ l₂ : List Adj) :
    ∀ (s : Wfc) (st : List (ℤ × ℤ)),
      stepNeighbors tiles cell (l₁ ++ l₂) s st =
        match stepNeighbors tiles cell l₁ s st with
        | .error e => .error e
        | .ok (s', st') => stepNeighbors tiles cell l₂ s' st' := by
  induction l₁ with
  | nil =>
    intro s st
    rfl
  | cons a rest ih =>
    intro s st
    have hL : stepNeighbors tiles cell ((a :: rest) ++ l₂) s st =
        match neighborStep tiles cell a s st with
        | Except.error e => Except.error e
        | Except.ok (s', stack') => stepNeighbors tiles cell (rest ++ l₂) s' stack' := rfl
    have hR : stepNeighbors tiles cell (a :: rest) s st =
        match neighborStep tiles cell a s st with
        | Except.error e => Except.error e
        | Except.ok (s', stack') => stepNeighbors tiles cell rest s' stack' := rfl
    rw [hL, hR]
    rcases hstep : neighborStep tiles cell a s st with e₀ | ⟨s₀, st₀⟩
    · rfl
    · exact ih s₀ st₀

/-- Every cell of a regenerated grid is uncollapsed and carries the
full tile-index list. -/
lemma regenerateGrid_items (s : Wfc) :
    ∀ c ∈ (regenerateGrid s).grid.items,
      c.isCollapsed = false ∧ c.options = some (List.range s.tiles.length) :=
  mkCellsAux_mem _ _ _ _ _ _

/-- C1: when the propagation scan of the popped collapsed cell reaches
an uncollapsed neighbor whose admissible set intersects the cell's
`validAdjacent[direction]` to the empty list, the pass regenerates:
the loop returns at once with `regenerateGrid` of the pre-pass state
(the partial in-pass cell updates are discarded with the old grid),
the result is the same whatever else is on the stack — no further
stack entry is processed — and every cell of the fresh grid is
uncollapsed with the full tile-index set. -/
theorem claim_C1_thm (s : Wfc) (p : ℤ × ℤ) (rest rest' : List (ℤ × ℤ)) (f f' : ℕ)
    (pre post : List Adj) (a : Adj) (s₁ : Wfc) (st₁ : List (ℤ × ℤ))
    (hadj : gridGetAdjacent s.grid p.1 p.2 = pre ++ a :: post)
    (hpre : stepNeighbors s.tiles (cellAt s p) pre s rest = .ok (s₁, st₁))
    (hcol : (cellAt s p).isCollapsed = true)
    (hun : (cellAt s₁ (a.x, a.y)).isCollapsed = false)
    (hempty : newOptionsOf (cellAt s p) a (cellAt s₁ (a.x, a.y)) = []) :
    propagateLoop (f + 1) (p :: rest) s = .regenerated (regenerateGrid s) ∧
    propagateLoop (f' + 1) (p :: rest') s = .regenerated (regenerateGrid s) ∧
    ∀ c ∈ (regenerateGrid s).grid.items,
      c.isCollapsed = false ∧ c.options = some (List.range s.tiles.length) := by
  have hstepA : ∀ st0, neighborStep s.tiles (cellAt s p) a s₁ st0 =
      .error (regenerateGrid s₁) := by
    intro st0
    unfold neighborStep
    rw [if_neg (by rw [hcol, hun]; simp), if_pos (by rw [hcol, hun]; rfl),
      if_pos (by rw [hempty]; simp)]
  have herr : ∀ (st0 : List (ℤ × ℤ)),
      stepNeighbors s.tiles (cellAt s p) (pre ++ a :: post) s st0 =
        .error (regenerateGrid s₁) := by
    intro st0
    rw [stepNeighbors_append]
    obtain ⟨pushed, hp1, hp2⟩ :=
      (stepNeighbors_stack s.tiles (cellAt s p) pre s rest st0).2 s₁ st₁ hpre
    rw [hp2]
    show (match neighborStep s.tiles (cellAt s p) a s₁ (pushed ++ st0) with
      | Except.error e => Except.error e
      | Except.ok (s', stack') => stepNeighbors s.tiles (cellAt s p) post s' stack') = _
    rw [hstepA]
  have hregen : regenerateGrid s₁ = regenerateGrid s :=
    regenerateGrid_congr
      ((stepNeighbors_outcome s.tiles (cellAt s p) pre s rest).2 s₁ st₁ hpre)
  have hloop : ∀ (f0 : ℕ) (rest0 : List (ℤ × ℤ)),
      propagateLoop (f0 + 1) (p :: rest0) s = .regenerated (regenerateGrid s) := by
    intro f0 rest0
    show (match processCell s p rest0 with
      | Except.error s' => PropResult.regenerated s'
      | Except.ok (s', stack') => propagateLoop f0 stack' s') = _
    unfold processCell
    rw [hadj, herr rest0, hregen]
  exact ⟨hloop f rest, hloop f' rest', regenerateGrid_items s⟩

/-- Witness catalog for C1: one tile that allows no right neighbor. -/
noncomputable def c1T : Tile :=
  { value := 5, sockets := [1, 1, 1, 1], weight := 1 / 10
    validAdjacent := [[], [], [], []], entropy := 0 }

/-- Witness cell: already collapsed to `c1T`. -/
noncomputable def c1c0 : Cell :=
  { value := some 5, sockets := some [1, 1, 1, 1], options := none
    validAdjacent := some [[], [], [], []], entropy := ⊤
    sumOfWeights := 1 / 10, isCollapsed := true }

/-- Witness cell: uncollapsed right neighbor. -/
noncomputable def c1c1 : Cell :=
  { value := none, sockets := none, options := some [0], validAdjacent := none
    entropy := ((0 : ℝ) : WithTop ℝ), sumOfWeights := 1 / 10, isCollapsed := false }

/-- Witness state for C1: a 2×1 grid whose collapsed left cell admits
nothing on its right. -/
noncomputable def c1S : Wfc :=
  { width := 2, height := 1, widthTimesHeight := 2, noiseModifier := 1 / 10 ^ 12
    tiles := [c1T], rng := 7, grid := ⟨2, 1, false, [c1c0, c1c1]⟩
    amountCollapsedCells := 0 }

/-- The right-neighbor descriptor of `(0,0)` in the witness grid. -/
def c1A : Adj := ⟨1, 0, 1, 1, 3⟩

/-- C1 witness: on the concrete contradictory state the pass
regenerates at once — with any remaining stack — and the fresh grid is
fully uncollapsed. -/
theorem claim_C1_witness :
    propagateLoop 3 [(0, 0)] c1S = .regenerated (regenerateGrid c1S) ∧
    propagateLoop 6 [(0, 0), (5, 5)] c1S = .regenerated (regenerateGrid c1S) ∧
    ∀ c ∈ (regenerateGrid c1S).grid.items,
      c.isCollapsed = false ∧ c.options = some (List.range c1S.tiles.length) :=
  claim_C1_thm c1S (0, 0) [] [(5, 5)] 2 5 [] [] c1A c1S []
    rfl rfl rfl rfl rfl

/-- Base catalog for the C5 counterexample: three tiles of caller
weight `10`, i.e. stored weight `1` and entropy contribution
`-1·log2 1 = 0`. -/
noncomputable def c5Base : List Tile :=
  [mkTile 0 [1, 1, 1, 1] 10, mkTile 1 [1, 1, 1, 1] 10, mkTile 2 [2, 2, 2, 2] 10]

/-- The compiled C5 catalog. -/
noncomputable def c5T : List Tile := defineAdjacencies c5Base

/-- Left cell of the C5 state, collapsed to tile 0 (whose
`validAdjacent` to the right is `[0, 1]`). -/
noncomputable def c5c0 : Cell :=
  collapseCell (mkCell [0, 1, 2] 0 (3 / 10)) (c5T.getD 0 dTile)

/-- Right cell of the C5 state, uncollapsed with all three tiles. -/
noncomputable def c5c1 : Cell :=
  mkCell [0, 1, 2] (entropyByIndices c5T [0, 1, 2]) (weightsByIndices c5T [0, 1, 2])

/-- The C5 pre-propagation state on a 2×1 grid. -/
noncomputable def c5S : Wfc :=
  { width := 2, height := 1, widthTimesHeight := 2, noiseModifier := 1 / 10 ^ 12
    tiles := c5T, rng := 0, grid := ⟨2, 1, false, [c5c0, c5c1]⟩
    amountCollapsedCells := 0 }

/-- The state after the scan of `(0,0)`: the right cell's options
shrank from `[0,1,2]` to `[0,1]` with recomputed entropy. -/
noncomputable def c5Out : Wfc :=
  updCell c5S 1 0
    { c5c1 with
      options := some [0, 1]
      entropy := ((entropyByIndices c5T [0, 1] : ℝ) : WithTop ℝ)
      sumOfWeights := weightsByIndices c5T [0, 1] }

/-- C5 counterexample: a propagation step strictly shrinks the
neighbor's admissible set (`[0,1,2]` to `[0,1]`), every tile weight is
positive, yet the recomputed entropy is *not* strictly smaller — all
entropy contributions are `-1·log2 1 = 0` because caller weight `10`
stores as weight `1`. -/
theorem claim_C5_cex :
    processCell c5S (0, 0) [] = .ok (c5Out, [(1, 0)]) ∧
    (∀ u ∈ c5S.tiles, 0 < u.weight) ∧
    (optD (cellAt c5Out (1, 0))).length < (optD (cellAt c5S (1, 0))).length ∧
    ¬((cellAt c5Out (1, 0)).entropy < (cellAt c5S (1, 0)).entropy) := by
  refine ⟨rfl, ?_, by decide, ?_⟩
  · intro u hu
    show (0 : ℚ) < u.weight
    have hu' : u ∈ defineAdjacencies c5Base := hu
    unfold defineAdjacencies at hu'
    rw [List.mem_map] at hu'
    obtain ⟨t, ht, rfl⟩ := hu'
    show (0 : ℚ) < t.weight
    simp only [c5Base, List.mem_cons, List.not_mem_nil, or_false] at ht
    rcases ht with h | h | h <;> subst h <;>
      · show (0 : ℚ) < (10 : ℚ) / 10
        norm_num
  · have h1 : (cellAt c5Out (1, 0)).entropy =
        ((entropyByIndices c5T [0, 1] : ℝ) : WithTop ℝ) := rfl
    have h2 : (cellAt c5S (1, 0)).entropy =
        ((entropyByIndices c5T [0, 1, 2] : ℝ) : WithTop ℝ) := rfl
    have hval : -((10 / 10 : ℚ) : ℝ) * Real.logb 2 ((10 / 10 : ℚ) : ℝ) = 0 := by
      have hc : ((10 / 10 : ℚ) : ℝ) = 1 := by norm_num
      rw [hc, Real.logb_one]
      ring
    have e01 : entropyByIndices c5T [0, 1] =
        0 + (-((10 / 10 : ℚ) : ℝ) * Real.logb 2 ((10 / 10 : ℚ) : ℝ)) +
          (-((10 / 10 : ℚ) : ℝ) * Real.logb 2 ((10 / 10 : ℚ) : ℝ)) := rfl
    have e012 : entropyByIndices c5T [0, 1, 2] =
        0 + (-((10 / 10 : ℚ) : ℝ) * Real.logb 2 ((10 / 10 : ℚ) : ℝ)) +
          (-((10 / 10 : ℚ) : ℝ) * Real.logb 2 ((10 / 10 : ℚ) : ℝ)) +
          (-((10 / 10 : ℚ) : ℝ) * Real.logb 2 ((10 / 10 : ℚ) : ℝ)) := rfl
    have ha : entropyByIndices c5T [0, 1] = 0 := by
      rw [e01, hval]
      norm_num
    have hb : entropyByIndices c5T [0, 1, 2] = 0 := by
      rw [e012, hval]
      norm_num
    rw [h1, h2, ha, hb]
    exact lt_irrefl _

/-! ## C3 -/

/-- The uncollapsed cell at the far end of descriptor `a` holds only
tile indices compatible — per the compiled `validAdjacent` table the
collapsed cell at `p` copied from its tile — with that collapsed
cell in the touching direction. -/
def Compat (s : Wfc) (p : ℤ × ℤ) (a : Adj) : Prop :=
  ∀ t ∈ optD (cellAt s (a.x, a.y)), t ∈ vAdjD (cellAt s p) a.direction

/-- Propagation soundness: every uncollapsed cell is compatible with
every collapsed cell adjacent to it. -/
def SoundState (s : Wfc) : Prop :=
  ∀ (p : ℤ × ℤ), ∀ a ∈ adjOf s p,
    (cellAt s p).isCollapsed = true →
    (cellAt s (a.x, a.y)).isCollapsed = false → Compat s p a

/-- The loop invariant: soundness may be pending exactly for collapsed
cells still waiting on the stack. -/
def StackInv (stack : List (ℤ × ℤ)) (s : Wfc) : Prop :=
  ∀ (p : ℤ × ℤ), ∀ a ∈ adjOf s p,
    (cellAt s p).isCollapsed = true →
    (cellAt s (a.x, a.y)).isCollapsed = false →
    Compat s p a ∨ p ∈ stack

/-- New options are a subset of the old ones. -/
lemma newOptionsOf_subset (cell : Cell) (a : Adj) (c : Cell) :
    ∀ t ∈ newOptionsOf cell a c, t ∈ optD c := fun _ ht =>
  List.mem_of_mem_filter ht

/-- New options all sit in the collapsed cell's adjacency list. -/
lemma newOptionsOf_mem_vAdj (cell : Cell) (a : Adj) (c : Cell) :
    ∀ t ∈ newOptionsOf cell a c, t ∈ vAdjD cell a.direction := by
  intro t ht
  have h := (List.mem_filter.mp ht).2
  rwa [List.elem_iff] at h

/-- When the filter drops nothing, the options were already all in the
adjacency list. -/
lemma filter_all_of_length {l : List ℕ} {pr : ℕ → Bool}
    (h : ¬(l.filter pr).length < l.length) : ∀ t ∈ l, pr t = true := by
  have hle := l.length_filter_le pr
  have heq : (l.filter pr).length = l.length := le_antisymm hle (le_of_not_lt h)
  have hself : l.filter pr = l := (List.filter_sublist l).eq_of_length heq
  exact fun t ht => List.filter_eq_self.mp hself t ht

/-- `shrinkUpd` keeps the grid well formed. -/
lemma GridWF_shrinkUpd (tiles : List Tile) (cell : Cell) (a : Adj) (s : Wfc)
    (h : GridWF s) : GridWF (shrinkUpd tiles cell a s) := by
  unfold shrinkUpd
  split <;> exact GridWF_updCell _ _ _ _ h

/-- `shrinkUpd` keeps the adjacency structure. -/
lemma adjOf_shrinkUpd (tiles : List Tile) (cell : Cell) (a : Adj) (s : Wfc)
    (p : ℤ × ℤ) : adjOf (shrinkUpd tiles cell a s) p = adjOf s p := by
  unfold shrinkUpd
  split <;> exact adjOf_updCell _ _ _ _ _

/-- `shrinkUpd` leaves every other coordinate alone. -/
lemma cellAt_shrinkUpd_ne (tiles : List Tile) (cell : Cell) (a : Adj) (s : Wfc)
    (p : ℤ × ℤ) (hwrap : s.grid.isWrappingAllowed = false)
    (hne : p ≠ (a.x, a.y)) :
    cellAt (shrinkUpd tiles cell a s) p = cellAt s p := by
  unfold shrinkUpd
  split <;> exact cellAt_updCell_ne _ _ _ _ _ hwrap hne

/-- What `shrinkUpd` wrote at the neighbor's coordinate: either it
collapsed the neighbor, or it stored exactly the filtered options
(keeping the uncollapsed flag). -/
lemma shrinkUpd_self_spec (tiles : List Tile) (cell : Cell) (a : Adj) (s : Wfc)
    (hwf : GridWF s) (hb : verifyBounds s.grid a.x a.y = true)
    (hun : (cellAt s (a.x, a.y)).isCollapsed = false) :
    (cellAt (shrinkUpd tiles cell a s) (a.x, a.y)).isCollapsed = true ∨
    ((cellAt (shrinkUpd tiles cell a s) (a.x, a.y)).isCollapsed = false ∧
      optD (cellAt (shrinkUpd tiles cell a s) (a.x, a.y)) =
        newOptionsOf cell a (cellAt s (a.x, a.y))) := by
  unfold shrinkUpd
  split
  · left
    rw [cellAt_updCell_self s a.x a.y _ hwf hb]
    rfl
  · right
    rw [cellAt_updCell_self s a.x a.y _ hwf hb]
    exact ⟨hun, rfl⟩

/-- The scan invariant: if pending compatibility obligations are
covered either by the stack or by the not-yet-scanned neighbors of the
popped cell `cp`, then after a successful scan they are covered by the
resulting stack alone. -/
lemma stepNeighbors_sound (tiles : List Tile) (cell : Cell) (cp : ℤ × ℤ) :
    ∀ (as : List Adj) (s : Wfc) (st : List (ℤ × ℤ)) (s₂ : Wfc) (st₂ : List (ℤ × ℤ)),
      GridWF s →
      cellAt s cp = cell →
      (∀ a ∈ as, a ∈ adjOf s cp) →
      (∀ (q : ℤ × ℤ), ∀ b ∈ adjOf s q,
        (cellAt s q).isCollapsed = true →
        (cellAt s (b.x, b.y)).isCollapsed = false →
        Compat s q b ∨ q ∈ st ∨ (q = cp ∧ b ∈ as)) →
      stepNeighbors tiles cell as s st = .ok (s₂, st₂) →
      GridWF s₂ ∧ StackInv st₂ s₂ := by
  intro as
  induction as with
  | nil =>
    intro s st s₂ st₂ hwf hsnap _ hinv hok
    cases hok
    refine ⟨hwf, ?_⟩
    intro q b hb hcol hunc
    rcases hinv q b hb hcol hunc with h | h | ⟨_, h⟩
    · exact Or.inl h
    · exact Or.inr h
    · cases h
  | cons a rest ih =>
    intro s st s₂ st₂ hwf hsnap has hinv hok
    have hcons : stepNeighbors tiles cell (a :: rest) s st =
        match neighborStep tiles cell a s st with
        | Except.error e => Except.error e
        | Except.ok (s', stack') => stepNeighbors tiles cell rest s' stack' := rfl
    rw [hcons] at hok
    rcases hstep : neighborStep tiles cell a s st with e | ⟨s₀, st₀⟩
    · rw [hstep] at hok
      cases hok
    · rw [hstep] at hok
      have hok' : stepNeighbors tiles cell rest s₀ st₀ = .ok (s₂, st₂) := hok
      have hamem : a ∈ adjOf s cp := has a (List.mem_cons_self _ _)
      obtain ⟨hbnd, hane⟩ := mem_gridGetAdjacent hamem
      have hcpne : cp ≠ (a.x, a.y) := fun h => hane (by rw [h])
      unfold neighborStep at hstep
      by_cases hc1 : (cell.isCollapsed && (cellAt s (a.x, a.y)).isCollapsed) = true
      · rw [if_pos hc1] at hstep
        by_cases hmis : sockD (cellAt s (a.x, a.y)) (engineOpp a.direction) ≠
            sockD cell a.direction
        · rw [if_pos hmis] at hstep
          cases hstep
        · rw [if_neg hmis] at hstep
          cases hstep
          refine ih s st s₂ st₂ hwf hsnap
            (fun b hb => has b (List.mem_cons_of_mem _ hb)) ?_ hok'
          intro q b hb hcol hunc
          rcases hinv q b hb hcol hunc with h | h | ⟨hqcp, hmem⟩
          · exact Or.inl h
          · exact Or.inr (Or.inl h)
          · rcases List.mem_cons.mp hmem with rfl | hmem'
            · exfalso
              rw [Bool.and_eq_true] at hc1
              rw [hunc] at hc1
              exact Bool.false_ne_true hc1.2
            · exact Or.inr (Or.inr ⟨hqcp, hmem'⟩)
      · rw [if_neg hc1] at hstep
        by_cases hc3 : (cell.isCollapsed && !(cellAt s (a.x, a.y)).isCollapsed) = true
        · rw [if_pos hc3] at hstep
          rw [Bool.and_eq_true] at hc3
          have hcellT : cell.isCollapsed = true := hc3.1
          have hunA : (cellAt s (a.x, a.y)).isCollapsed = false := by
            have h2 := hc3.2
            rcases hcoll : (cellAt s (a.x, a.y)).isCollapsed with _ | _
            · rfl
            · rw [hcoll] at h2
              cases h2
          by_cases hlen1 : (newOptionsOf cell a (cellAt s (a.x, a.y))).length < 1
          · rw [if_pos hlen1] at hstep
            cases hstep
          · rw [if_neg hlen1] at hstep
            by_cases hshrink : (newOptionsOf cell a (cellAt s (a.x, a.y))).length <
                (optD (cellAt s (a.x, a.y))).length
            · rw [if_pos hshrink] at hstep
              cases hstep
              have hwf₀ : GridWF (shrinkUpd tiles cell a s) :=
                GridWF_shrinkUpd _ _ _ _ hwf
              have hsnap₀ : cellAt (shrinkUpd tiles cell a s) cp = cell := by
                rw [cellAt_shrinkUpd_ne _ _ _ _ _ hwf.1 hcpne]
                exact hsnap
              refine ih (shrinkUpd tiles cell a s) ((a.x, a.y) :: st) s₂ st₂ hwf₀ hsnap₀
                ?_ ?_ hok'
              · intro b hb
                rw [adjOf_shrinkUpd]
                exact has b (List.mem_cons_of_mem _ hb)
              · intro q b hb hcol hunc
                rw [adjOf_shrinkUpd] at hb
                by_cases hq : q = (a.x, a.y)
                · exact Or.inr (Or.inl (by rw [hq]; exact List.mem_cons_self _ _))
                · have hqcell : cellAt (shrinkUpd tiles cell a s) q = cellAt s q :=
                    cellAt_shrinkUpd_ne _ _ _ _ _ hwf.1 hq
                  rw [hqcell] at hcol
                  by_cases hbpos : (b.x, b.y) = (a.x, a.y)
                  · rcases shrinkUpd_self_spec tiles cell a s hwf hbnd hunA
                        with hcl | ⟨_, hopts⟩
                    · exfalso
                      rw [hbpos, hcl] at hunc
                      cases hunc
                    · rcases hinv q b hb hcol (by rw [hbpos]; exact hunA)
                          with h | h | ⟨hqcp, hmem⟩
                      · refine Or.inl ?_
                        intro t ht
                        rw [hbpos, hopts] at ht
                        have ht' : t ∈ optD (cellAt s (b.x, b.y)) := by
                          rw [hbpos]
                          exact newOptionsOf_subset _ _ _ t ht
                        rw [hqcell]
                        exact h t ht'
                      · exact Or.inr (Or.inl (List.mem_cons_of_mem _ h))
                      · rcases List.mem_cons.mp hmem with rfl | hmem'
                        · refine Or.inl ?_
                          intro t ht
                          rw [hbpos, hopts] at ht
                          rw [hqcp, hsnap₀]
                          exact newOptionsOf_mem_vAdj _ _ _ t ht
                        · exact Or.inr (Or.inr ⟨hqcp, hmem'⟩)
                  · have hbcell : cellAt (shrinkUpd tiles cell a s) (b.x, b.y) =
                        cellAt s (b.x, b.y) :=
                      cellAt_shrinkUpd_ne _ _ _ _ _ hwf.1 hbpos
                    rw [hbcell] at hunc
                    rcases hinv q b hb hcol hunc with h | h | ⟨hqcp, hmem⟩
                    · refine Or.inl ?_
                      intro t ht
                      rw [hbcell] at ht
                      rw [hqcell]
                      exact h t ht
                    · exact Or.inr (Or.inl (List.mem_cons_of_mem _ h))
                    · rcases List.mem_cons.mp hmem with rfl | hmem'
                      · exact absurd rfl hbpos
                      · exact Or.inr (Or.inr ⟨hqcp, hmem'⟩)
            · rw [if_neg hshrink] at hstep
              cases hstep
              have hcompat : Compat s cp a := by
                intro t ht
                have hall := filter_all_of_length hshrink
                have h := hall t ht
                rw [hsnap]
                rwa [List.elem_iff] at h
              refine ih s st s₂ st₂ hwf hsnap
                (fun b hb => has b (List.mem_cons_of_mem _ hb)) ?_ hok'
              intro q b hb hcol hunc
              rcases hinv q b hb hcol hunc with h | h | ⟨hqcp, hmem⟩
              · exact Or.inl h
              · exact Or.inr (Or.inl h)
              · rcases List.mem_cons.mp hmem with rfl | hmem'
                · exact Or.inl (by rw [hqcp]; exact hcompat)
                · exact Or.inr (Or.inr ⟨hqcp, hmem'⟩)
        · rw [if_neg hc3] at hstep
          cases hstep
          have hcellF : cell.isCollapsed = false := by
            rcases hcc : cell.isCollapsed with _ | _
            · rfl
            · exfalso
              rcases hac : (cellAt s (a.x, a.y)).isCollapsed with _ | _
              · exact hc3 (by rw [hcc, hac]; rfl)
              · exact hc1 (by rw [hcc, hac]; rfl)
          refine ih s st s₂ st₂ hwf hsnap
            (fun b hb => has b (List.mem_cons_of_mem _ hb)) ?_ hok'
          intro q b hb hcol hunc
          rcases hinv q b hb hcol hunc with h | h | ⟨hqcp, hmem⟩
          · exact Or.inl h
          · exact Or.inr (Or.inl h)
          · rcases List.mem_cons.mp hmem with rfl | hmem'
            · exfalso
              rw [hqcp, hsnap, hcellF] at hcol
              cases hcol
            · exact Or.inr (Or.inr ⟨hqcp, hmem'⟩)

/-- A completed propagation pass (no regeneration) started under the
stack invariant yields a sound state. -/
lemma propagateLoop_sound :
    ∀ (f : ℕ) (stack : List (ℤ × ℤ)) (s s' : Wfc),
      GridWF s → StackInv stack s →
      propagateLoop f stack s = .completed s' → SoundState s' := by
  intro f
  induction f with
  | zero =>
    intro stack s s' _ _ h
    cases h
  | succ f ihf =>
    intro stack s s' hwf hinv hrun
    cases stack with
    | nil =>
      cases hrun
      intro p a ha hcol hunc
      rcases hinv p a ha hcol hunc with h | h
      · exact h
      · cases h
    | cons p rest =>
      have hcons : propagateLoop (f + 1) (p :: rest) s =
          match processCell s p rest with
          | Except.error s0 => PropResult.regenerated s0
          | Except.ok (s0, stack0) => propagateLoop f stack0 s0 := rfl
      rw [hcons] at hrun
      rcases hpc : processCell s p rest with s0 | ⟨s0, stack0⟩
      · rw [hpc] at hrun
        cases hrun
      · rw [hpc] at hrun
        have hrun' : propagateLoop f stack0 s0 = .completed s' := hrun
        have hmain := stepNeighbors_sound s.tiles (cellAt s p) p
          (gridGetAdjacent s.grid p.1 p.2) s rest s0 stack0 hwf rfl
          (fun _ ha => ha)
          (fun q b hb hcol hunc => by
            rcases hinv q b hb hcol hunc with h | h
            · exact Or.inl h
            · rcases List.mem_cons.mp h with rfl | hmem'
              · exact Or.inr (Or.inr ⟨rfl, hb⟩)
              · exact Or.inr (Or.inl hmem'))
          hpc
        exact ihf stack0 s0 s' hmain.1 hmain.2 hrun'

/-- Every read of the grid yields either the dense array's content or
the `undefined` placeholder. -/
lemma cellAt_default_or_mem (s : Wfc) (p : ℤ × ℤ) :
    cellAt s p = dCell ∨ cellAt s p ∈ s.grid.items := by
  unfold cellAt gridGet
  split
  · split
    · rcases h : s.grid.items[(gridIndex s.grid p.1 p.2).toNat]? with _ | c
      · left
        rfl
      · right
        exact List.getElem?_mem h
    · left
      rfl
  · left
    rfl

/-- A grid with no collapsed cell is vacuously sound. -/
lemma soundState_of_uncollapsed (s : Wfc)
    (h : ∀ c ∈ s.grid.items, c.isCollapsed = false) : SoundState s := by
  intro p a _ hcol _
  exfalso
  rcases cellAt_default_or_mem s p with hd | hm
  · rw [hd] at hcol
    cases hcol
  · rw [h _ hm] at hcol
    cases hcol

/-- `collapseCoordinates`, unfolded into the collapse write followed
by the propagation pass. -/
lemma collapseCoordinates_eq (f : ℕ) (s : Wfc) (x y : ℤ) :
    collapseCoordinates f s x y =
      propagateLoop f [(x, y)]
        (updCell { s with rng := (nextFloat s.rng (some (cellAt s (x, y)).sumOfWeights)).2 }
          x y
          (collapseCell (cellAt s (x, y))
            ((pickTile (nextFloat s.rng (some (cellAt s (x, y)).sumOfWeights)).1
              (getTiles s.tiles (optD (cellAt s (x, y))))).getD dTile))) := rfl

/-- Writing one collapsed cell into a sound state re-establishes the
stack invariant with just that coordinate pending. -/
lemma stackInv_after_collapse (s : Wfc) (x y : ℤ) (r : ℤ) (c : Cell)
    (hwf : GridWF s) (hsound : SoundState s) (hc : c.isCollapsed = true) :
    GridWF (updCell { s with rng := r } x y c) ∧
    StackInv [(x, y)] (updCell { s with rng := r } x y c) := by
  have hwfr : GridWF ({ s with rng := r } : Wfc) := hwf
  refine ⟨GridWF_updCell _ _ _ _ hwfr, ?_⟩
  intro q b hb hcol hunc
  rw [adjOf_updCell] at hb
  have hb' : b ∈ adjOf s q := hb
  by_cases hq : q = (x, y)
  · exact Or.inr (by rw [hq]; exact List.mem_cons_self _ _)
  · have hqcell : cellAt (updCell ({ s with rng := r } : Wfc) x y c) q =
        cellAt s q :=
      cellAt_updCell_ne _ _ _ _ _ hwf.1 hq
    rw [hqcell] at hcol
    obtain ⟨hbbnd, _⟩ := mem_gridGetAdjacent hb'
    by_cases hbpos : (b.x, b.y) = (x, y)
    · exfalso
      have h1 : b.x = x := congrArg Prod.fst hbpos
      have h2 : b.y = y := congrArg Prod.snd hbpos
      have hxy : verifyBounds s.grid x y = true := by
        rw [← h1, ← h2]
        exact hbbnd
      have hself : cellAt (updCell ({ s with rng := r } : Wfc) x y c) (x, y) = c :=
        cellAt_updCell_self _ x y c hwfr hxy
      rw [hbpos, hself, hc] at hunc
      cases hunc
    · have hbcell : cellAt (updCell ({ s with rng := r } : Wfc) x y c) (b.x, b.y) =
          cellAt s (b.x, b.y) :=
        cellAt_updCell_ne _ _ _ _ _ hwf.1 hbpos
      rw [hbcell] at hunc
      refine Or.inl ?_
      intro t ht
      rw [hbcell] at ht
      rw [hqcell]
      exact hsound q b hb' hcol hunc t ht

/-- C3: propagation soundness.  A freshly constructed engine state is
(vacuously) sound, and whenever a sound, well-formed state performs a
collapse step whose propagation pass completes without triggering a
regeneration, the resulting state is again sound: every still
uncollapsed cell's admissible set holds only tile indices compatible
— per the collapsed cell's copied `validAdjacent` table — with every
collapsed cell adjacent to it.  (Regenerated and fresh grids have no
collapsed cells, so every state the run loop reaches satisfies the
hypotheses.) -/
theorem claim_C3_thm (s s' : Wfc) (x y : ℤ) (f : ℕ)
    (tiles : List Tile) (w h : ℕ) (sd o : ℤ)
    (hwf : GridWF s) (hsound : SoundState s)
    (hrun : collapseCoordinates f s x y = .completed s') :
    SoundState s' ∧ SoundState (mkWfc tiles w h sd o) := by
  constructor
  · rw [collapseCoordinates_eq] at hrun
    obtain ⟨hwfP, hinvP⟩ := stackInv_after_collapse s x y
      (nextFloat s.rng (some (cellAt s (x, y)).sumOfWeights)).2
      (collapseCell (cellAt s (x, y))
        ((pickTile (nextFloat s.rng (some (cellAt s (x, y)).sumOfWeights)).1
          (getTiles s.tiles (optD (cellAt s (x, y))))).getD dTile))
      hwf hsound rfl
    exact propagateLoop_sound f [(x, y)] _ s' hwfP hinvP hrun
  · apply soundState_of_uncollapsed
    intro c hc
    exact (mkCellsAux_mem _ _ _ _ _ _ c hc).1

/-- Witness tile for C3. -/
noncomputable def c3T : Tile :=
  { value := 4, sockets := [1, 1, 1, 1], weight := 1 / 10
    validAdjacent := [[0], [0], [0], [0]], entropy := 0 }

/-- Witness cell for C3: uncollapsed, one admissible tile. -/
noncomputable def c3Cell : Cell :=
  { value := none, sockets := none, options := some [0], validAdjacent := none
    entropy := ((0 : ℝ) : WithTop ℝ), sumOfWeights := 1 / 10, isCollapsed := false }

/-- Witness state for C3: a sound 1×1 grid about to collapse. -/
noncomputable def c3S : Wfc :=
  { width := 1, height := 1, widthTimesHeight := 1, noiseModifier := 1 / 10 ^ 12
    tiles := [c3T], rng := 4, grid := ⟨1, 1, false, [c3Cell]⟩
    amountCollapsedCells := 0 }

/-- The tile the witness collapse draws (kept symbolic: the cumulative
sampling value is irrelevant to soundness). -/
noncomputable def c3Choosen : Tile :=
  (pickTile (nextFloat 4 (some (1 / 10))).1
    (getTiles c3S.tiles (optD c3Cell))).getD dTile

/-- The state after the witness collapse step. -/
noncomputable def c3Out : Wfc :=
  updCell { c3S with rng := (nextFloat 4 (some (1 / 10))).2 } 0 0
    (collapseCell c3Cell c3Choosen)

/-- C3 witness: the soundness theorem applied to the concrete 1×1
collapse (whose propagation pass completes with an empty scan). -/
theorem claim_C3_witness :
    SoundState c3Out ∧ SoundState (mkWfc [] 1 1 5 6) :=
  claim_C3_thm c3S c3Out 0 0 2 [] 1 1 5 6 ⟨rfl, rfl⟩
    (soundState_of_uncollapsed c3S (fun c hc => by
      have hc' : c ∈ [c3Cell] := hc
      rw [List.mem_singleton] at hc'
      subst hc'
      rfl))
    (by rfl)

end WFC
